import Mathlib

/-!
# Point-to-plane ICP and depth-to-cloud projection (`src/cuda_icp/icp.cpp`)

Shallow embedding of the CPU code path and proofs of its specification.

Conventions of the embedding:
* `float`/`double` values are elements of a linearly ordered field `F` (exact arithmetic);
  a non-finite value (the result of a division by zero) is `none` in `Option F`;
* `uint32_t` values are natural numbers, wrapped with `u32` where the code can overflow;
* `std::vector` / raw arrays are lists; an out-of-bounds access makes the function return
  `none`;
* calls into external numeric libraries are the fields of `NumLib`.
-/

namespace cuda_icp

/-- Wrap-around of `uint32_t` arithmetic. -/
def u32 (n : Nat) : Nat := n % 4294967296

/-- Counted loop `for (i = lo; i < n; i++) s = body(i, s)` over a state `s`, where the body
may fail (out-of-bounds access). -/
def forRange {σ : Type} (lo n : Nat) (body : Nat → σ → Option σ) (s : σ) : Option σ :=
  (List.range' lo (n - lo)).foldlM (fun s i => body i s) s

/-- Modelled from the spec: the point type `Vec3f` (declared in a header that is not among
the sources), "three single-precision coordinates (x, y, z)". -/
structure Vec3f (F : Type) where
  x : F
  y : F
  z : F
deriving DecidableEq

/-- Modelled from the spec: `Mat3x3f`, a fixed-size row-major matrix holding the camera
intrinsics; `K i j` is `K[i][j]`. -/
abbrev Mat3x3f (F : Type) := Matrix (Fin 3) (Fin 3) F

/-- Modelled from the spec: `Mat4x4f`, a fixed-size row-major matrix for a homogeneous
transform; its `operator*` is the matrix product. -/
abbrev Mat4x4f (F : Type) := Matrix (Fin 4) (Fin 4) F

/-! ## `cpu_exclusive_scan_serial` (lines 142-152) -/

/-- Body of the scan loop; the state is `(cache, start)`. -/
def scan_body {T : Type} [Add T] (i : Nat) (st : T × List T) : Option (T × List T) := do
  let prev ← st.2[i - 1]?
  let temp := st.1 + prev
  let cache ← st.2[i]?
  some (cache, st.2.set i temp)

/-- In-place exclusive scan of the first `N` elements of `start`. -/
def cpu_exclusive_scan_serial {T : Type} [Add T] [Zero T] (start : List T) (N : Nat) :
    Option (List T) := do
  let cache ← start[0]?
  let start := start.set 0 0
  let r ← forRange 1 N scan_body (cache, start)
  some r.2

/-! ## `__depth2cloud_cpu` (lines 154-198) -/

section depth2cloud
variable {F : Type} [LinearOrderedField F]

/-- Body of the mask pass at the loop indices `(x, y)` (line 163). -/
def mask_body (depth : List Int) (width stride x y : Nat) (mask : List Nat) :
    Option (List Nat) := do
  let d ← depth[u32 (x * stride + y * stride * width)]?
  if 0 < d then
    if u32 (x + y * width) < mask.length then some (mask.set (u32 (x + y * width)) 1) else none
  else some mask

/-- The mask pass (lines 161-165): `x` is the outer and `y` the inner loop counter. -/
def mask_pass (depth : List Int) (width height stride : Nat) (mask : List Nat) :
    Option (List Nat) :=
  forRange 0 (width / stride) (fun x m =>
    forRange 0 (height / stride) (fun y m => mask_body depth width stride x y m) m) mask

/-- Body of the scatter pass at the loop indices `(x, y)` (lines 185-194). -/
def scatter_body (depth : List Int) (width : Nat) (K : Mat3x3f F) (stride tl_x tl_y : Nat)
    (mask : List Nat) (x y : Nat) (cloud : List (Vec3f F)) : Option (List (Vec3f F)) := do
  let idx_depth := u32 (x * stride + y * stride * width)
  let idx_mask := u32 (x + y * width)
  let d ← depth[idx_depth]?
  if d ≤ 0 then some cloud
  else do
    let z_pcd : F := (d : F) / 1000
    let x_pcd : F := ((u32 (x + tl_x) : F) - K 0 2) / K 0 0 * z_pcd
    let y_pcd : F := ((u32 (y + tl_y) : F) - K 1 2) / K 1 1 * z_pcd
    let m ← mask[idx_mask]?
    if m < cloud.length then some (cloud.set m ⟨x_pcd, y_pcd, z_pcd⟩) else none

/-- The scatter pass (lines 182-196). -/
def scatter_pass (depth : List Int) (width height : Nat) (K : Mat3x3f F)
    (stride tl_x tl_y : Nat) (mask : List Nat) (cloud : List (Vec3f F)) :
    Option (List (Vec3f F)) :=
  forRange 0 (width / stride) (fun x c =>
    forRange 0 (height / stride)
      (fun y c => scatter_body depth width K stride tl_x tl_y mask x y c) c) cloud

/-- Depth image to point cloud. The depth samples (`int32_t` or `uint16_t`) are integers; a
division by `stride = 0`, `mask.back()` on an empty mask and every out-of-bounds access give
`none`. The slots of `cloud(total_pcd_num)` start as the zero point. -/
def __depth2cloud_cpu (depth : List Int) (width height : Nat) (K : Mat3x3f F)
    (stride tl_x tl_y : Nat) : Option (List (Vec3f F)) :=
  if stride = 0 then none
  else do
    let mask := List.replicate (u32 (width * height) / stride / stride) 0
    let mask ← mask_pass depth width height stride mask
    let mask_back_temp ← mask.getLast?
    let mask ← cpu_exclusive_scan_serial mask mask.length
    let back ← mask.getLast?
    let total_pcd_num := u32 (back + mask_back_temp)
    let cloud := List.replicate total_pcd_num (Vec3f.mk (0 : F) 0 0)
    scatter_pass depth width height K stride tl_x tl_y mask cloud

end depth2cloud

/-! ## Point-to-plane ICP (lines 7-135) -/

/-- Routines of external numeric libraries called by the code, taken as parameters:
`std::sqrt`, the sine and cosine behind `Eigen::AngleAxisd`, and Eigen's `ldlt().solve`. -/
structure NumLib (F : Type) where
  sqrt : F → F
  sin : F → F
  cos : F → F
  ldlt_solve : Matrix (Fin 6) (Fin 6) F → (Fin 6 → F) → (Fin 6 → F)

/-- Modelled from the spec: the `Scene` template parameter, "query(source_point) ->
(matched_point, matched_normal, valid): a pure, side-effect-free lookup". -/
structure Scene (F : Type) where
  query : Vec3f F → Vec3f F × Vec3f F × Bool

/-- Modelled from the spec: `ICPConvergenceCriteria` (declared in `icp.h`, not among the
sources), "max_iteration (non-negative integer), relative_fitness threshold, relative_rmse
threshold". -/
structure ICPConvergenceCriteria (F : Type) where
  relative_fitness_ : F
  relative_rmse_ : F
  max_iteration_ : Nat

/-- Modelled from the spec: `RegistrationResult` (declared in `icp.h`, not among the
sources): fitness, inlier_rmse and the cumulative 4x4 transformation. A metric is `none`
when it is not finite (division by zero). -/
structure RegistrationResult (F : Type) where
  transformation_ : Mat4x4f F
  inlier_rmse_ : Option F
  fitness_ : Option F

/-- Row `i` of the three working buffers: `A_buffer.row(i)`, `b_buffer(i)` and
`valid_buffer[i]`. The buffers all have `model_pcd.size()` rows and are stored row-wise. -/
structure BufRow (F : Type) where
  A : Fin 6 → F
  b : F
  valid : Nat

/-- Local state of `__ICP_Point2Plane_cpu`. The field `applied` is a ghost: the incremental
transforms applied so far, oldest first. -/
structure IcpState (F : Type) where
  model_pcd : List (Vec3f F)
  buffer : List (BufRow F)
  result : RegistrationResult F
  backup : RegistrationResult F
  applied : List (Mat4x4f F)

/-- What a call of `__ICP_Point2Plane_cpu` leaves behind: the returned `result` and the
caller's mutated `model_pcd`; the ghosts `buffer` and `applied` at the return, and the ghost
`pass`, the value of `iter` in the pass that returned. -/
structure IcpRun (F : Type) where
  result : RegistrationResult F
  model_pcd : List (Vec3f F)
  buffer : List (BufRow F)
  applied : List (Mat4x4f F)
  pass : Nat

section icp
variable {F : Type} [LinearOrderedField F]

/-- Rotation matrix of `Eigen::AngleAxisd(a, UnitX())`. -/
def rotX (lib : NumLib F) (a : F) : Matrix (Fin 3) (Fin 3) F :=
  !![1, 0, 0; 0, lib.cos a, -lib.sin a; 0, lib.sin a, lib.cos a]

/-- Rotation matrix of `Eigen::AngleAxisd(a, UnitY())`. -/
def rotY (lib : NumLib F) (a : F) : Matrix (Fin 3) (Fin 3) F :=
  !![lib.cos a, 0, lib.sin a; 0, 1, 0; -lib.sin a, 0, lib.cos a]

/-- Rotation matrix of `Eigen::AngleAxisd(a, UnitZ())`. -/
def rotZ (lib : NumLib F) (a : F) : Matrix (Fin 3) (Fin 3) F :=
  !![lib.cos a, -lib.sin a, 0; lib.sin a, lib.cos a, 0; 0, 0, 1]

/-- Lines 7-17: identity, then the 3x3 block `Rz(input 2) * Ry(input 1) * Rx(input 0)` and
the translation column `input 3..5`. -/
def TransformVector6dToMatrix4d (lib : NumLib F) (input : Fin 6 → F) :
    Matrix (Fin 4) (Fin 4) F :=
  let R := rotZ lib (input 2) * rotY lib (input 1) * rotX lib (input 0)
  !![R 0 0, R 0 1, R 0 2, input 3;
     R 1 0, R 1 1, R 1 2, input 4;
     R 2 0, R 2 1, R 2 2, input 5;
     0, 0, 0, 1]

/-- Lines 19-27: entrywise copy. -/
def eigen_to_custom (extrinsic : Matrix (Fin 4) (Fin 4) F) : Mat4x4f F :=
  Matrix.of (fun i j => extrinsic i j)

/-- Lines 29-36. -/
def eigen_slover_666 (lib : NumLib F) (A : Matrix (Fin 6) (Fin 6) F) (b : Fin 6 → F) :
    Mat4x4f F :=
  eigen_to_custom (TransformVector6dToMatrix4d lib (lib.ldlt_solve A b))

/-- Loop body of `transform_pcd` (lines 42-48). -/
def transform_point (trans : Mat4x4f F) (pcd : Vec3f F) : Vec3f F :=
  { x := trans 0 0 * pcd.x + trans 0 1 * pcd.y + trans 0 2 * pcd.z + trans 0 3
    y := trans 1 0 * pcd.x + trans 1 1 * pcd.y + trans 1 2 * pcd.z + trans 1 3
    z := trans 2 0 * pcd.x + trans 2 1 * pcd.y + trans 2 2 * pcd.z + trans 2 3 }

/-- Lines 38-50: every point is replaced independently. -/
def transform_pcd (model_pcd : List (Vec3f F)) (trans : Mat4x4f F) : List (Vec3f F) :=
  model_pcd.map (transform_point trans)

/-- Float division; `none` is the non-finite result of a division by zero. -/
def fdiv (a b : F) : Option F := if b = 0 then none else some (a / b)

/-- The test `std::abs(a - b) < thr`; it is false when a value is not finite. -/
def abs_diff_lt (a b : Option F) (thr : F) : Bool :=
  match a, b with
  | some x, some y => decide (|x - y| < thr)
  | _, _ => false

/-- Lines 71-92 for one point: the row is written when the query is valid and is left as it
was otherwise. -/
def linearize_point (scene : Scene F) (src_pcd : Vec3f F) (row : BufRow F) : BufRow F :=
  match scene.query src_pcd with
  | (dst_pcd, dst_normal, valid) =>
    if valid then
      { b := (dst_pcd.x - src_pcd.x) * dst_normal.x + (dst_pcd.y - src_pcd.y) * dst_normal.y +
             (dst_pcd.z - src_pcd.z) * dst_normal.z
        A := ![dst_normal.z * src_pcd.y - dst_normal.y * src_pcd.z,
               dst_normal.x * src_pcd.z - dst_normal.z * src_pcd.x,
               dst_normal.y * src_pcd.x - dst_normal.x * src_pcd.y,
               dst_normal.x, dst_normal.y, dst_normal.z]
        valid := 1 }
    else row

/-- Lines 70-95: point `i` reads `model_pcd[i]` and touches row `i` only. -/
def linearize_pass (scene : Scene F) (model_pcd : List (Vec3f F)) (buffer : List (BufRow F)) :
    List (BufRow F) :=
  List.zipWith (linearize_point scene) model_pcd buffer

/-- Lines 97-103, `count`. A cloud has fewer than `2^32` points (the loop counter is a
`uint32_t`), so the sum of the 0/1 markers does not wrap. -/
def reduce_count (buffer : List (BufRow F)) : Nat :=
  buffer.foldl (fun count row => count + row.valid) 0

/-- Lines 97-103, `total_error`. -/
def reduce_error (buffer : List (BufRow F)) : F :=
  buffer.foldl (fun total_error row => total_error + row.b * row.b) 0

/-- Line 118: `A_buffer.transpose() * A_buffer`. -/
def normal_A (buffer : List (BufRow F)) : Matrix (Fin 6) (Fin 6) F :=
  Matrix.of (fun j k => (buffer.map (fun row => row.A j * row.A k)).sum)

/-- Line 119: `A_buffer.transpose() * b_buffer`. -/
def normal_b (buffer : List (BufRow F)) : Fin 6 → F :=
  fun j => (buffer.map (fun row => row.A j * row.b)).sum

/-- Lines 69-108: linearization, reduction, `backup = result` and the new metrics. -/
def icp_evaluate (lib : NumLib F) (scene : Scene F) (st : IcpState F) : IcpState F :=
  let buffer := linearize_pass scene st.model_pcd st.buffer
  let count := reduce_count buffer
  let total_error := reduce_error buffer
  { st with
    buffer := buffer
    backup := st.result
    result :=
      { transformation_ := st.result.transformation_
        fitness_ := fdiv (count : F) (st.model_pcd.length : F)
        inlier_rmse_ := (fdiv total_error (count : F)).map lib.sqrt } }

/-- Lines 113-114: the convergence test. -/
def icp_converged (criteria : ICPConvergenceCriteria F) (st : IcpState F) : Bool :=
  abs_diff_lt st.result.fitness_ st.backup.fitness_ criteria.relative_fitness_ &&
  abs_diff_lt st.result.inlier_rmse_ st.backup.inlier_rmse_ criteria.relative_rmse_

/-- Lines 118-130: solve, move the cloud, accumulate the transformation. -/
def icp_update (lib : NumLib F) (st : IcpState F) : IcpState F :=
  let A := normal_A st.buffer
  let b := normal_b st.buffer
  let extrinsic := eigen_slover_666 lib A b
  { st with
    model_pcd := transform_pcd st.model_pcd extrinsic
    result := { st.result with transformation_ := extrinsic * st.result.transformation_ }
    applied := st.applied ++ [extrinsic] }

/-- A `return result;` in the pass `iter`. -/
def icp_return (st : IcpState F) (iter : Nat) : IcpRun F :=
  { result := st.result, model_pcd := st.model_pcd, buffer := st.buffer,
    applied := st.applied, pass := iter }

/-- The loop of lines 67-131 from the counter value `iter`; `fuel` bounds the number of
passes still to run. -/
def icp_loop (lib : NumLib F) (scene : Scene F) (criteria : ICPConvergenceCriteria F) :
    Nat → Nat → IcpState F → IcpRun F
  | 0, iter, st => icp_return st iter
  | fuel + 1, iter, st =>
    if iter ≤ criteria.max_iteration_ then
      let st := icp_evaluate lib scene st
      if iter = criteria.max_iteration_ then icp_return st iter
      else if icp_converged criteria st then icp_return st iter
      else icp_loop lib scene criteria fuel (iter + 1) (icp_update lib st)
    else icp_return st iter

/-- The zero row of `A_buffer.setZero()`, `b_buffer.setZero()` and `valid_buffer(n, 0)`. -/
def BufRow.zero : BufRow F := { A := fun _ => 0, b := 0, valid := 0 }

/-- Modelled from the spec: the default-constructed `RegistrationResult` (its constructor is
in `icp.h`, not among the sources). The spec gives the transformation ("starts as
identity"); it does not give the initial metrics, which are the parameters `f0` and `r0`. -/
def RegistrationResult.init (f0 r0 : Option F) : RegistrationResult F :=
  { transformation_ := 1, inlier_rmse_ := r0, fitness_ := f0 }

/-- Lines 56-64: the state before the first pass. -/
def icp_init (f0 r0 : Option F) (model_pcd : List (Vec3f F)) : IcpState F :=
  { model_pcd := model_pcd
    buffer := List.replicate model_pcd.length BufRow.zero
    result := RegistrationResult.init f0 r0
    backup := RegistrationResult.init f0 r0
    applied := [] }

/-- Lines 52-135. The loop runs while `iter <= max_iteration_`, at most `max_iteration_ + 1`
passes. -/
def __ICP_Point2Plane_cpu (lib : NumLib F) (f0 r0 : Option F) (model_pcd : List (Vec3f F))
    (scene : Scene F) (criteria : ICPConvergenceCriteria F) : IcpRun F :=
  icp_loop lib scene criteria (criteria.max_iteration_ + 1) 0 (icp_init f0 r0 model_pcd)

end icp

/-! ## Specification-side definitions -/

/-- Pixels already visited when the double loop (outer `x`, inner `y`) stands at `(x, y)`,
expressed on the row-major index `i = x' + y' * width`. -/
def visited (width x y i : Nat) : Prop := i % width < x ∨ (i % width = x ∧ i / width < y)

/-- Pixel `i` (row-major) carries a strictly positive depth sample. -/
def positive (depth : List Int) (i : Nat) : Bool := decide (0 < (depth[i]?).getD 0)

/-- Number of indices below `i` that satisfy `p`: the compacted output slot of `i`. -/
def rank (p : Nat → Bool) (i : Nat) : Nat := ((List.range i).filter p).length

/-- Invariant of the mask pass (stride 1) at the loop indices `(x, y)`. -/
def maskInv (depth : List Int) (w h x y : Nat) (mask : List Nat) : Prop :=
  mask.length = w * h ∧
  (∀ i, i < w * h → mask[i]? = some 0 ∨ (mask[i]? = some 1 ∧ positive depth i = true)) ∧
  (∀ i, i < w * h → visited w x y i → positive depth i = true → mask[i]? = some 1)

/-- Invariant of the scan loop at the head of iteration `i`. -/
def scanInv {T : Type} [AddCommMonoid T] (orig : List T) (i : Nat) (st : T × List T) : Prop :=
  st.2.length = orig.length ∧ orig[i - 1]? = some st.1 ∧
  (∀ j, j < i → st.2[j]? = some (orig.take j).sum) ∧
  (∀ j, i ≤ j → st.2[j]? = orig[j]?)

section spec_defs
variable {F : Type} [LinearOrderedField F]

/-- Closed-form projection of the pixel with row-major index `i = x + y * width`:
`z = depth / 1000`, `x_pcd = (x + tl_x - K[0][2]) / K[0][0] * z`,
`y_pcd = (y + tl_y - K[1][2]) / K[1][1] * z`. -/
def projection (depth : List Int) (width : Nat) (K : Mat3x3f F) (tl_x tl_y i : Nat) :
    Vec3f F :=
  { x := (((i % width + tl_x : Nat) : F) - K 0 2) / K 0 0 *
      ((((depth[i]?).getD 0 : Int) : F) / 1000)
    y := (((i / width + tl_y : Nat) : F) - K 1 2) / K 1 1 *
      ((((depth[i]?).getD 0 : Int) : F) / 1000)
    z := (((depth[i]?).getD 0 : Int) : F) / 1000 }

/-- Invariant of the scatter pass (stride 1) at the loop indices `(x, y)`. -/
def scatterInv (depth : List Int) (w h : Nat) (K : Mat3x3f F) (tl_x tl_y x y : Nat)
    (cloud : List (Vec3f F)) : Prop :=
  cloud.length = rank (positive depth) (w * h) ∧
  ∀ i, i < w * h → visited w x y i → positive depth i = true →
    cloud[rank (positive depth) i]? = some (projection depth w K tl_x tl_y i)

/-- Cross product `a x b`. -/
def cross (a b : Vec3f F) : Vec3f F :=
  { x := a.y * b.z - a.z * b.y
    y := a.z * b.x - a.x * b.z
    z := a.x * b.y - a.y * b.x }

/-- One pass that falls through to the update: lines 69-108 followed by lines 118-130. -/
def icp_step (lib : NumLib F) (scene : Scene F) (st : IcpState F) : IcpState F :=
  icp_update lib (icp_evaluate lib scene st)

/-- State at the head of pass `k` when each of the passes `0 .. k-1` applied its update. -/
def icp_state_at (lib : NumLib F) (scene : Scene F) (st0 : IcpState F) (k : Nat) :
    IcpState F :=
  (icp_step lib scene)^[k] st0

/-- The product `E_k * ... * E_1 * E_0 * I` of a list `[E_0, E_1, ..., E_k]`. -/
def accumulated (applied : List (Mat4x4f F)) : Mat4x4f F :=
  applied.foldl (fun T E => E * T) 1

/-- Cumulative-transform invariant: the transformation is the accumulated product of the
applied increments, its last row is `[0,0,0,1]`, and the cloud is the caller's cloud moved
by it. -/
def icpInv (orig : List (Vec3f F)) (T : Mat4x4f F) (applied : List (Mat4x4f F))
    (cloud : List (Vec3f F)) : Prop :=
  T = accumulated applied ∧ T 3 = ![0, 0, 0, 1] ∧ cloud = transform_pcd orig T

end spec_defs

/-! ## Specification-side definitions for the rigid transform, the normal equations and the
valid count -/

/-- The top-left 3x3 block of a 4x4 transform. -/
def rotation_block {F : Type} (T : Matrix (Fin 4) (Fin 4) F) : Matrix (Fin 3) (Fin 3) F :=
  Matrix.of (fun i j => T i.castSucc j.castSucc)

section valid_system_defs
variable {F : Type} [LinearOrderedField F]

/-- Jacobian row `J_i` of a source point `p` with matched normal `n`: `[p x n, n]`. -/
def jacobian_row (scene : Scene F) (p : Vec3f F) : Fin 6 → F :=
  ![(cross p (scene.query p).2.1).x, (cross p (scene.query p).2.1).y,
    (cross p (scene.query p).2.1).z, (scene.query p).2.1.x, (scene.query p).2.1.y,
    (scene.query p).2.1.z]

/-- Residual `r_i` of a source point `p` with matched point `q` and matched normal `n`:
`dot(q - p, n)`. -/
def residual (scene : Scene F) (p : Vec3f F) : F :=
  ((scene.query p).1.x - p.x) * (scene.query p).2.1.x +
  ((scene.query p).1.y - p.y) * (scene.query p).2.1.y +
  ((scene.query p).1.z - p.z) * (scene.query p).2.1.z

/-- The normal matrix built from the valid correspondences only: the sum over the valid
points `i` of `J_i^T J_i`. -/
def valid_system_A (scene : Scene F) (model_pcd : List (Vec3f F)) :
    Matrix (Fin 6) (Fin 6) F :=
  Matrix.of (fun j k =>
    ((model_pcd.filter (fun p => (scene.query p).2.2)).map
      (fun p => jacobian_row scene p j * jacobian_row scene p k)).sum)

/-- The right-hand side built from the valid correspondences only: the sum over the valid
points `i` of `J_i^T r_i`. -/
def valid_system_b (scene : Scene F) (model_pcd : List (Vec3f F)) : Fin 6 → F :=
  fun j =>
    ((model_pcd.filter (fun p => (scene.query p).2.2)).map
      (fun p => jacobian_row scene p j * residual scene p)).sum

end valid_system_defs

/-- The divisor `count` computed in pass `k` (line 101), when the passes before it applied
their updates. -/
def pass_count {F : Type} [LinearOrderedField F] (lib : NumLib F) (scene : Scene F)
    (st0 : IcpState F) (k : Nat) : Nat :=
  reduce_count (icp_evaluate lib scene (icp_state_at lib scene st0 k)).buffer

/-- Invariant of the working buffers: one row per point, every validity marker 0 or 1. -/
def bufInv {F : Type} (st : IcpState F) : Prop :=
  st.buffer.length = st.model_pcd.length ∧ ∀ row ∈ st.buffer, row.valid ≤ 1

/-! ## Concrete inputs -/

/-- A numeric library over the rationals that is exact on the arguments met in the concrete
runs below: square roots of squares, angle 0, and diagonal linear systems (a zero pivot
gives a zero component). -/
def diagLib : NumLib ℚ where
  sqrt := fun x => (Nat.sqrt x.num.toNat : ℚ) / (Nat.sqrt x.den : ℚ)
  sin := fun _ => 0
  cos := fun _ => 1
  ldlt_solve := fun A b i => if A i i = 0 then 0 else b i / A i i

/-- A scene that matches a point `p` with `p.x < 1` to `p + (2,0,0)` with normal `(1,0,0)`
and has no correspondence for the other points. -/
def sceneShift : Scene ℚ where
  query := fun p => (⟨p.x + 2, p.y, p.z⟩, ⟨1, 0, 0⟩, decide (p.x < 1))

/-- A scene that matches every point `p` to `p + (2,0,0)` with normal `(1,0,0)`. -/
def sceneAll : Scene ℚ where
  query := fun p => (⟨p.x + 2, p.y, p.z⟩, ⟨1, 0, 0⟩, true)

/-- Normal-equations matrix of pass 0 for the single point `(0,0,0)` in `sceneShift`. -/
def staleA : Matrix (Fin 6) (Fin 6) ℚ := Matrix.of (fun j k => if j = 3 ∧ k = 3 then 1 else 0)

/-- Right-hand side of pass 0 for the single point `(0,0,0)` in `sceneShift`. -/
def staleB : Fin 6 → ℚ := fun j => if j = 3 then 2 else 0

/-- A scene that matches every point `p` to its foot `(p.x, p.y, 0)` on the plane `z = 0`,
with normal `(0,0,1)`. -/
def sceneFlat : Scene ℚ where
  query := fun p => (⟨p.x, p.y, 0⟩, ⟨0, 0, 1⟩, true)

/-! ## Loops, scan and projector -/

theorem foldlM_range'_inv {σ : Type} (body : Nat → σ → Option σ) (P : Nat → σ → Prop) :
    ∀ (k lo : Nat) (s0 : σ), P lo s0 →
      (∀ i s, lo ≤ i → i < lo + k → P i s → ∃ s', body i s = some s' ∧ P (i + 1) s') →
      ∃ s, (List.range' lo k).foldlM (fun s i => body i s) s0 = some s ∧ P (lo + k) s := by
  intro k
  induction k with
  | zero =>
    intro lo s0 h0 _
    exact ⟨s0, by simp [List.range'], by simpa using h0⟩
  | succ k ih =>
    intro lo s0 h0 hstep
    obtain ⟨s1, hb, h1⟩ := hstep lo s0 (Nat.le_refl _) (by omega) h0
    obtain ⟨s, hs, hP⟩ := ih (lo + 1) s1 h1 (fun i s hi hlt hp => hstep i s (by omega) (by omega) hp)
    refine ⟨s, ?_, ?_⟩
    · simp [List.range', List.foldlM, hb, hs]
    · have : lo + (k + 1) = lo + 1 + k := by omega
      rw [this]; exact hP

theorem forRange_inv {σ : Type} (body : Nat → σ → Option σ) (P : Nat → σ → Prop)
    (lo n : Nat) (hle : lo ≤ n) (s0 : σ) (h0 : P lo s0)
    (hstep : ∀ i s, lo ≤ i → i < n → P i s → ∃ s', body i s = some s' ∧ P (i + 1) s') :
    ∃ s, forRange lo n body s0 = some s ∧ P n s := by
  have h := foldlM_range'_inv body P (n - lo) lo s0 h0
    (fun i s hi hlt hp => hstep i s hi (by omega) hp)
  have e : lo + (n - lo) = n := by omega
  rw [e] at h
  exact h

theorem visited_zero (width i : Nat) : ¬ visited width 0 0 i := by
  simp [visited]

theorem visited_step (width x y i : Nat) (hx : x < width) :
    visited width x (y + 1) i ↔ visited width x y i ∨ i = x + y * width := by
  unfold visited
  constructor
  · rintro (h | ⟨h1, h2⟩)
    · exact Or.inl (Or.inl h)
    · by_cases hy : i / width < y
      · exact Or.inl (Or.inr ⟨h1, hy⟩)
      · right
        have hd : i / width = y := by omega
        have := Nat.mod_add_div i width
        rw [h1, hd, Nat.mul_comm] at this
        omega
  · rintro ((h | ⟨h1, h2⟩) | h)
    · exact Or.inl h
    · exact Or.inr ⟨h1, by omega⟩
    · right
      subst h
      have hw : 0 < width := by omega
      rw [Nat.add_mul_mod_self_right, Nat.mod_eq_of_lt hx, Nat.add_mul_div_right _ _ hw,
        Nat.div_eq_of_lt hx]
      exact ⟨rfl, by omega⟩

theorem visited_row_end (width height x i : Nat) (hi : i < width * height) :
    visited width (x + 1) 0 i ↔ visited width x height i := by
  unfold visited
  have hd : i / width < height := Nat.div_lt_of_lt_mul hi
  constructor
  · rintro (h | ⟨_, h⟩)
    · by_cases hx : i % width < x
      · exact Or.inl hx
      · exact Or.inr ⟨by omega, hd⟩
    · exact absurd h (Nat.not_lt_zero _)
  · rintro (h | ⟨h, _⟩)
    · exact Or.inl (by omega)
    · exact Or.inl (by omega)

theorem visited_all (width i : Nat) (hw : 0 < width) : visited width width 0 i :=
  Or.inl (Nat.mod_lt _ hw)

theorem pixel_lt (width height x y : Nat) (hx : x < width) (hy : y < height) :
    x + y * width < width * height := by
  have : (y + 1) * width ≤ height * width := Nat.mul_le_mul_right _ hy
  have e : height * width = width * height := Nat.mul_comm _ _
  have e2 : (y + 1) * width = y * width + width := by ring
  omega

theorem u32_of_lt (n : Nat) (h : n < 4294967296) : u32 n = n := Nat.mod_eq_of_lt h

theorem depth_index_stride1 (w h x y : Nat) (hov : w * h < 4294967296) (hx : x < w)
    (hy : y < h) : u32 (x * 1 + y * 1 * w) = x + y * w ∧ u32 (x + y * w) = x + y * w := by
  have hj := pixel_lt w h x y hx hy
  simp only [Nat.mul_one]
  exact ⟨u32_of_lt _ (by omega), u32_of_lt _ (by omega)⟩

theorem mask_body_step (depth : List Int) (w h x y : Nat) (m : List Nat)
    (hlen : depth.length = w * h) (hov : w * h < 4294967296) (hx : x < w) (hy : y < h)
    (hinv : maskInv depth w h x y m) :
    ∃ m', mask_body depth w 1 x y m = some m' ∧ maskInv depth w h x (y + 1) m' := by
  obtain ⟨hml, hsafe, hdone⟩ := hinv
  have hj := pixel_lt w h x y hx hy
  obtain ⟨e1, e2⟩ := depth_index_stride1 w h x y hov hx hy
  have hd : depth[x + y * w]? = some depth[x + y * w] := List.getElem?_eq_getElem (by omega)
  by_cases hp : 0 < depth[x + y * w]
  · refine ⟨m.set (x + y * w) 1, ?_, ?_⟩
    · simp [mask_body, e1, e2, hd, hp, hml, hj]
    · have hpj : positive depth (x + y * w) = true := by simp [positive, hd, hp]
      refine ⟨by simp [hml], ?_, ?_⟩
      · intro i hi
        by_cases hij : x + y * w = i
        · subst hij
          right
          exact ⟨by simp [List.getElem?_set, hml, hj], hpj⟩
        · rw [List.getElem?_set_ne hij]
          exact hsafe i hi
      · intro i hi hv hpi
        by_cases hij : x + y * w = i
        · subst hij
          simp [List.getElem?_set, hml, hj]
        · rw [List.getElem?_set_ne hij]
          rcases (visited_step w x y i hx).1 hv with h | h
          · exact hdone i hi h hpi
          · exact absurd h.symm hij
  · refine ⟨m, ?_, hml, hsafe, ?_⟩
    · simp [mask_body, e1, e2, hd, hp]
    · intro i hi hv hpi
      rcases (visited_step w x y i hx).1 hv with h | h
      · exact hdone i hi h hpi
      · subst h
        simp [positive, hd, hp] at hpi

/-- After the mask pass (stride 1) every slot holds the indicator of a positive sample. -/
theorem mask_pass_stride1 (depth : List Int) (w h : Nat) (hlen : depth.length = w * h)
    (hov : w * h < 4294967296) (hw : 0 < w) :
    mask_pass depth w h 1 (List.replicate (w * h) 0) =
      some ((List.range (w * h)).map (fun i => if positive depth i then 1 else 0)) := by
  obtain ⟨m, hm, hml, hsafe, hdone⟩ := forRange_inv
    (fun x m => forRange 0 h (fun y m => mask_body depth w 1 x y m) m)
    (fun x m => maskInv depth w h x 0 m) 0 w (Nat.zero_le _) (List.replicate (w * h) 0)
    ⟨by simp, fun i hi => Or.inl (by simp [hi]),
      fun i _ hv => absurd hv (visited_zero w i)⟩
    (by
      intro x m _ hx hinv
      obtain ⟨m', hm', hml', hsafe', hdone'⟩ := forRange_inv
        (fun y m => mask_body depth w 1 x y m) (fun y m => maskInv depth w h x y m)
        0 h (Nat.zero_le _) m hinv
        (fun y m _ hy hi => mask_body_step depth w h x y m hlen hov hx hy hi)
      exact ⟨m', hm', hml', hsafe', fun i hi hv =>
        hdone' i hi ((visited_row_end w h x i hi).1 hv)⟩)
  have : m = (List.range (w * h)).map (fun i => if positive depth i then 1 else 0) := by
    apply List.ext_getElem?
    intro i
    by_cases hi : i < w * h
    · rw [List.getElem?_map, List.getElem?_range hi]
      by_cases hp : positive depth i = true
      · simp [hp, hdone i hi (visited_all w i hw) hp]
      · rcases hsafe i hi with h0 | ⟨_, h1⟩
        · simp [hp, h0]
        · exact absurd h1 hp
    · rw [List.getElem?_eq_none (by omega), List.getElem?_eq_none (by simp; omega)]
  rw [← this]
  simpa [mask_pass] using hm

theorem sum_indicator_range (p : Nat → Bool) (i : Nat) :
    ((List.range i).map (fun j => if p j then 1 else 0)).sum = rank p i := by
  induction i with
  | zero => simp [rank]
  | succ i ih =>
    unfold rank at ih ⊢
    rw [List.range_succ, List.map_append, List.sum_append, ih, List.filter_append,
      List.length_append]
    by_cases hp : p i = true <;> simp [hp]

theorem sum_take_indicator (p : Nat → Bool) (n i : Nat) (hi : i ≤ n) :
    (((List.range n).map (fun j => if p j then 1 else 0)).take i).sum = rank p i := by
  rw [← List.map_take, List.take_range, Nat.min_eq_left hi]
  exact sum_indicator_range p i

theorem rank_mono (p : Nat → Bool) (i n : Nat) (hi : i ≤ n) : rank p i ≤ rank p n := by
  induction n with
  | zero =>
    have : i = 0 := by omega
    subst this; exact Nat.le_refl _
  | succ n ih =>
    by_cases h : i = n + 1
    · subst h; exact Nat.le_refl _
    · have := ih (by omega)
      unfold rank at this ⊢
      rw [List.range_succ, List.filter_append, List.length_append]
      omega

theorem getElem?_filter_rank (p : Nat → Bool) (n i : Nat) (hi : i < n) (hp : p i = true) :
    ((List.range n).filter p)[rank p i]? = some i := by
  induction n with
  | zero => omega
  | succ n ih =>
    rw [List.range_succ, List.filter_append]
    by_cases h : i = n
    · subst h
      rw [List.getElem?_append_right (by simp [rank])]
      simp [rank, hp]
    · have hlt : i < n := by omega
      have h1 := ih hlt
      have hb : rank p i < ((List.range n).filter p).length := by
        by_contra hc
        rw [List.getElem?_eq_none (by omega)] at h1
        exact Option.noConfusion h1
      rw [List.getElem?_append_left hb]
      exact h1

theorem rank_lt (p : Nat → Bool) (n i : Nat) (hi : i < n) (hp : p i = true) :
    rank p i < rank p n := by
  have h1 := getElem?_filter_rank p n i hi hp
  by_contra hc
  rw [List.getElem?_eq_none (by unfold rank at hc ⊢; omega)] at h1
  exact Option.noConfusion h1

theorem rank_inj (p : Nat → Bool) (n i j : Nat) (hi : i < n) (hj : j < n)
    (hpi : p i = true) (hpj : p j = true) (h : rank p i = rank p j) : i = j := by
  have h1 := getElem?_filter_rank p n i hi hpi
  have h2 := getElem?_filter_rank p n j hj hpj
  rw [h, h2] at h1
  exact (Option.some.inj h1).symm

theorem rank_surj (p : Nat → Bool) (n k : Nat) (hk : k < rank p n) :
    ∃ i, i < n ∧ p i = true ∧ rank p i = k ∧ ((List.range n).filter p)[k]? = some i := by
  have hk' : k < ((List.range n).filter p).length := hk
  have hmem : ((List.range n).filter p)[k] ∈ (List.range n).filter p := List.getElem_mem hk'
  rw [List.mem_filter, List.mem_range] at hmem
  obtain ⟨hin, hp⟩ := hmem
  refine ⟨((List.range n).filter p)[k], hin, hp, ?_, List.getElem?_eq_getElem hk'⟩
  have h1 := getElem?_filter_rank p n _ hin hp
  have hr := rank_lt p n _ hin hp
  have hnd : ((List.range n).filter p).Nodup := (List.nodup_range n).filter _
  rw [List.getElem?_eq_getElem hr] at h1
  exact (hnd.getElem_inj_iff).1 (Option.some.inj h1)

theorem scan_spec {T : Type} [AddCommMonoid T] (start : List T) (N : Nat)
    (h1 : 1 ≤ N) (hN : N ≤ start.length) :
    ∃ out, cpu_exclusive_scan_serial start N = some out ∧ out.length = start.length ∧
      (∀ i, i < N → out[i]? = some (start.take i).sum) ∧
      (∀ i, N ≤ i → out[i]? = start[i]?) := by
  have hpos : 0 < start.length := by omega
  have h0 : start[0]? = some start[0] := List.getElem?_eq_getElem hpos
  obtain ⟨s, hs, hlen, _, hlo, hhi⟩ := forRange_inv
    scan_body (scanInv start) 1 N h1 (start[0], start.set 0 0)
    (by
      refine ⟨by simp, by simp, ?_, ?_⟩
      · intro j hj
        have : j = 0 := by omega
        subst this
        simp [List.getElem?_set, hpos]
      · intro j hj
        rw [List.getElem?_set_ne (by omega)])
    (by
      rintro i ⟨c, st⟩ hi hlt ⟨hlen, hc, hlo, hhi⟩
      simp only at hlen hc hlo hhi
      have hil : i < start.length := by omega
      have hprev := hlo (i - 1) (by omega)
      have hcur : st[i]? = some start[i] := by
        rw [hhi i (Nat.le_refl _)]; exact List.getElem?_eq_getElem hil
      have hc' : start[i - 1] = c := by
        rw [List.getElem?_eq_getElem (by omega)] at hc
        exact Option.some.inj hc
      refine ⟨(start[i], st.set i (c + (start.take (i - 1)).sum)), ?_, ?_⟩
      · simp [scan_body, hprev, hcur]
      · refine ⟨by simp [hlen], by simp [List.getElem?_eq_getElem hil], ?_, ?_⟩
        · intro j hj
          by_cases hji : j = i
          · subst hji
            simp only [List.getElem?_set, hlen, hil, if_true]
            have e : j = (j - 1) + 1 := by omega
            conv_rhs => rw [e, List.sum_take_succ start (j - 1) (by omega)]
            rw [hc', add_comm]
          · simp only
            rw [List.getElem?_set_ne (by omega)]
            exact hlo j (by omega)
        · intro j hj
          simp only
          rw [List.getElem?_set_ne (by omega)]
          exact hhi j (by omega))
  refine ⟨s.2, ?_, hlen, hlo, hhi⟩
  simp [cpu_exclusive_scan_serial, h0, hs]

section depth2cloud_proofs
variable {F : Type} [LinearOrderedField F]

theorem scatter_body_step (depth : List Int) (w h : Nat) (K : Mat3x3f F)
    (tl_x tl_y x y : Nat) (mask : List Nat) (c : List (Vec3f F))
    (hlen : depth.length = w * h) (hov : w * h < 4294967296)
    (hox : w + tl_x ≤ 4294967296) (hoy : h + tl_y ≤ 4294967296)
    (hmask : ∀ i, i < w * h → mask[i]? = some (rank (positive depth) i))
    (hx : x < w) (hy : y < h) (hinv : scatterInv depth w h K tl_x tl_y x y c) :
    ∃ c', scatter_body depth w K 1 tl_x tl_y mask x y c = some c' ∧
      scatterInv depth w h K tl_x tl_y x (y + 1) c' := by
  obtain ⟨hcl, hdone⟩ := hinv
  have hj := pixel_lt w h x y hx hy
  obtain ⟨e1, e2⟩ := depth_index_stride1 w h x y hov hx hy
  have hd : depth[x + y * w]? = some depth[x + y * w] := List.getElem?_eq_getElem (by omega)
  have hw : 0 < w := by omega
  have hmod : (x + y * w) % w = x := by
    rw [Nat.add_mul_mod_self_right, Nat.mod_eq_of_lt hx]
  have hdiv : (x + y * w) / w = y := by
    rw [Nat.add_mul_div_right _ _ hw, Nat.div_eq_of_lt hx, Nat.zero_add]
  by_cases hp : depth[x + y * w] ≤ 0
  · refine ⟨c, ?_, hcl, ?_⟩
    · simp [scatter_body, e1, e2, hd, hp]
    · intro i hi hv hpi
      rcases (visited_step w x y i hx).1 hv with h | h
      · exact hdone i hi h hpi
      · subst h
        simp [positive, hd] at hpi
        omega
  · have hpj : positive depth (x + y * w) = true := by
      simp [positive, hd]; omega
    have hr : rank (positive depth) (x + y * w) < c.length := by
      rw [hcl]; exact rank_lt _ _ _ hj hpj
    have hval : (Vec3f.mk
        (((u32 (x + tl_x) : F) - K 0 2) / K 0 0 * ((depth[x + y * w] : F) / 1000))
        (((u32 (y + tl_y) : F) - K 1 2) / K 1 1 * ((depth[x + y * w] : F) / 1000))
        ((depth[x + y * w] : F) / 1000)) = projection depth w K tl_x tl_y (x + y * w) := by
      have hx32 : x + tl_x < 4294967296 := by omega
      have hy32 : y + tl_y < 4294967296 := by omega
      have ex := u32_of_lt (x + tl_x) hx32
      have ey := u32_of_lt (y + tl_y) hy32
      simp only [projection, hmod, hdiv, hd, Option.getD_some, ex, ey]
    refine ⟨c.set (rank (positive depth) (x + y * w)) (projection depth w K tl_x tl_y (x + y * w)),
      ?_, by simp [hcl], ?_⟩
    · rw [← hval]
      simp [scatter_body, e1, e2, hd, hp, hmask _ hj, hr]
    · intro i hi hv hpi
      by_cases hij : x + y * w = i
      · subst hij
        simp [List.getElem?_set, hr]
      · have hne : rank (positive depth) (x + y * w) ≠ rank (positive depth) i :=
          fun h => hij (rank_inj _ _ _ _ hj hi hpj hpi h)
        rw [List.getElem?_set_ne hne]
        rcases (visited_step w x y i hx).1 hv with h | h
        · exact hdone i hi h hpi
        · exact absurd h.symm hij

theorem scatter_pass_stride1 (depth : List Int) (w h : Nat) (K : Mat3x3f F)
    (tl_x tl_y : Nat) (mask : List Nat) (c0 : List (Vec3f F))
    (hlen : depth.length = w * h) (hov : w * h < 4294967296) (hw : 0 < w)
    (hox : w + tl_x ≤ 4294967296) (hoy : h + tl_y ≤ 4294967296)
    (hmask : ∀ i, i < w * h → mask[i]? = some (rank (positive depth) i))
    (hc0 : c0.length = rank (positive depth) (w * h)) :
    scatter_pass depth w h K 1 tl_x tl_y mask c0 =
      some (((List.range (w * h)).filter (positive depth)).map
        (projection depth w K tl_x tl_y)) := by
  obtain ⟨c, hc, hcl, hdone⟩ := forRange_inv
    (fun x c => forRange 0 h (fun y c => scatter_body depth w K 1 tl_x tl_y mask x y c) c)
    (fun x c => scatterInv depth w h K tl_x tl_y x 0 c) 0 w (Nat.zero_le _) c0
    ⟨hc0, fun i _ hv => absurd hv (visited_zero w i)⟩
    (by
      intro x c _ hx hinv
      obtain ⟨c', hc', hcl', hdone'⟩ := forRange_inv
        (fun y c => scatter_body depth w K 1 tl_x tl_y mask x y c)
        (fun y c => scatterInv depth w h K tl_x tl_y x y c)
        0 h (Nat.zero_le _) c hinv
        (fun y c _ hy hi =>
          scatter_body_step depth w h K tl_x tl_y x y mask c hlen hov hox hoy hmask hx hy hi)
      exact ⟨c', hc', hcl', fun i hi hv =>
        hdone' i hi ((visited_row_end w h x i hi).1 hv)⟩)
  have : c = ((List.range (w * h)).filter (positive depth)).map
      (projection depth w K tl_x tl_y) := by
    apply List.ext_getElem?
    intro k
    by_cases hk : k < rank (positive depth) (w * h)
    · obtain ⟨i, hi, hp, hr, hget⟩ := rank_surj (positive depth) (w * h) k hk
      rw [List.getElem?_map, hget, ← hr]
      simpa using hdone i hi (visited_all w i hw) hp
    · rw [List.getElem?_eq_none (by omega),
        List.getElem?_eq_none (by simp only [List.length_map]; unfold rank at hk; omega)]
  rw [← this]
  simpa [scatter_pass] using hc

end depth2cloud_proofs

theorem rank_positive_eq_countP (depth : List Int) :
    rank (positive depth) depth.length = depth.countP (fun d => decide (0 < d)) := by
  induction depth using List.reverseRecOn with
  | nil => simp [rank]
  | append_singleton l a ih =>
    unfold rank at ih ⊢
    rw [List.length_append, List.length_singleton, List.range_succ, List.filter_append,
      List.length_append, List.countP_append, ← ih]
    congr 1
    · congr 1
      apply List.filter_congr
      intro i hi
      rw [List.mem_range] at hi
      simp [positive, List.getElem?_append_left hi]
    · by_cases ha : 0 < a <;> simp [positive, ha]

section depth2cloud_main
variable {F : Type} [LinearOrderedField F]

theorem depth2cloud_stride1_eq (depth : List Int) (w h : Nat) (K : Mat3x3f F)
    (tl_x tl_y : Nat) (hw : 1 ≤ w) (hh : 1 ≤ h) (hlen : depth.length = w * h)
    (hov : w * h < 4294967296) (hox : w + tl_x ≤ 4294967296)
    (hoy : h + tl_y ≤ 4294967296) :
    __depth2cloud_cpu depth w h K 1 tl_x tl_y =
      some (((List.range (w * h)).filter (positive depth)).map
        (projection depth w K tl_x tl_y)) := by
  have hn : 1 ≤ w * h := Nat.mul_pos hw hh
  have hmp := mask_pass_stride1 depth w h hlen hov hw
  generalize hm1 : (List.range (w * h)).map (fun i => if positive depth i then 1 else 0) = mask1
    at hmp
  have hl1 : mask1.length = w * h := by rw [← hm1]; simp
  have hget1 : ∀ i, i < w * h → mask1[i]? = some (if positive depth i then 1 else 0) := by
    intro i hi
    rw [← hm1, List.getElem?_map, List.getElem?_range hi]; rfl
  obtain ⟨out, hscan, hol, hlo, _⟩ := scan_spec mask1 mask1.length (by omega) (Nat.le_refl _)
  have hmask : ∀ i, i < w * h → out[i]? = some (rank (positive depth) i) := by
    intro i hi
    rw [hlo i (by omega), ← hm1, sum_take_indicator _ _ _ (by omega)]
  have hlast1 : mask1.getLast? = some (if positive depth (w * h - 1) then 1 else 0) := by
    rw [List.getLast?_eq_getElem?, hl1]; exact hget1 _ (by omega)
  have hlast2 : out.getLast? = some (rank (positive depth) (w * h - 1)) := by
    rw [List.getLast?_eq_getElem?, hol, hl1]; exact hmask _ (by omega)
  have htot : rank (positive depth) (w * h - 1) + (if positive depth (w * h - 1) then 1 else 0)
      = rank (positive depth) (w * h) := by
    have e : w * h = (w * h - 1) + 1 := by omega
    conv_rhs => rw [e]
    unfold rank
    rw [List.range_succ, List.filter_append, List.length_append]
    by_cases hp : positive depth (w * h - 1) = true <;> simp [hp]
  have hle : rank (positive depth) (w * h) ≤ w * h := by
    unfold rank
    exact (List.length_filter_le _ _).trans (by simp)
  have hu : u32 (rank (positive depth) (w * h)) = rank (positive depth) (w * h) :=
    u32_of_lt _ (by omega)
  have hsc := scatter_pass_stride1 depth w h K tl_x tl_y out
    (List.replicate (rank (positive depth) (w * h)) (Vec3f.mk (0 : F) 0 0))
    hlen hov hw hox hoy hmask (by simp)
  have hu0 : u32 (w * h) = w * h := u32_of_lt _ hov
  simp only [__depth2cloud_cpu, Nat.div_one, hu0, hmp, hlast1, hscan, hlast2, htot, hu, hsc,
    Option.bind_eq_bind, Option.some_bind, Option.pure_def, Option.bind_some]
  simp

/-- Claim C1. For stride 1 (no `uint32` overflow, exact arithmetic) the projector returns exactly
as many points as there are positive depth samples, and the k-th point is the closed-form
projection of the k-th positive pixel in row-major order. -/
theorem depth2cloud_cpu_stride1_correct (depth : List Int) (w h : Nat) (K : Mat3x3f F)
    (tl_x tl_y : Nat) (hw : 1 ≤ w) (hh : 1 ≤ h) (hlen : depth.length = w * h)
    (hov : w * h < 4294967296) (hox : w + tl_x ≤ 4294967296)
    (hoy : h + tl_y ≤ 4294967296) (hfx : K 0 0 ≠ 0) (hfy : K 1 1 ≠ 0) :
    ∃ cloud, __depth2cloud_cpu depth w h K 1 tl_x tl_y = some cloud ∧
      cloud.length = depth.countP (fun d => decide (0 < d)) ∧
      cloud = ((List.range (w * h)).filter (positive depth)).map
        (projection depth w K tl_x tl_y) := by
  refine ⟨_, depth2cloud_stride1_eq depth w h K tl_x tl_y hw hh hlen hov hox hoy, ?_, rfl⟩
  rw [List.length_map, ← rank_positive_eq_countP, hlen]
  rfl

end depth2cloud_main

theorem depth2cloud_cpu_stride1_witness :
    (1 ≤ 4 ∧ (0 :: List.replicate 15 (1000 : Int)).length = 4 * 4 ∧
      (!![1, 0, 0; 0, 1, 0; 0, 0, 1] : Mat3x3f ℚ) 0 0 ≠ 0 ∧
      (!![1, 0, 0; 0, 1, 0; 0, 0, 1] : Mat3x3f ℚ) 1 1 ≠ 0) ∧
    ∃ cloud, __depth2cloud_cpu (0 :: List.replicate 15 1000) 4 4
        (!![1, 0, 0; 0, 1, 0; 0, 0, 1] : Mat3x3f ℚ) 1 0 0 = some cloud ∧
      cloud.length = 15 ∧ (∀ p ∈ cloud, p.z = 1) ∧ (⟨0, 0, 0⟩ : Vec3f ℚ) ∉ cloud ∧
      cloud[0]? = some ⟨1, 0, 1⟩ := by
  have hK0 : (!![1, 0, 0; 0, 1, 0; 0, 0, 1] : Mat3x3f ℚ) 0 0 ≠ 0 := by simp
  have hK1 : (!![1, 0, 0; 0, 1, 0; 0, 0, 1] : Mat3x3f ℚ) 1 1 ≠ 0 := by simp
  obtain ⟨cloud, h1, h2, h3⟩ := depth2cloud_cpu_stride1_correct
    (0 :: List.replicate 15 1000) 4 4 (!![1, 0, 0; 0, 1, 0; 0, 0, 1] : Mat3x3f ℚ) 0 0
    (by decide) (by decide) (by decide) (by decide) (by decide) (by decide) hK0 hK1
  have hf : (List.range (4 * 4)).filter (positive (0 :: List.replicate 15 1000)) =
      [1, 2, 3, 4, 5, 6, 7, 8, 9, 10, 11, 12, 13, 14, 15] := by decide
  rw [hf] at h3
  refine ⟨⟨by decide, by decide, hK0, hK1⟩, cloud, h1, ?_, ?_, ?_, ?_⟩
  · rw [h2]; decide
  · subst h3
    intro p hp
    simp only [List.mem_map, List.mem_cons, List.mem_singleton, List.not_mem_nil] at hp
    obtain ⟨i, hi, rfl⟩ := hp
    rcases hi with rfl | rfl | rfl | rfl | rfl | rfl | rfl | rfl | rfl | rfl | rfl | rfl | rfl | rfl | rfl | hi <;>
      first | exact hi.elim | simp [projection, List.replicate]
  · subst h3
    intro hp
    simp only [List.mem_map, List.mem_cons, List.mem_singleton, List.not_mem_nil] at hp
    obtain ⟨i, hi, hz⟩ := hp
    have hz' := congrArg Vec3f.z hz
    rcases hi with rfl | rfl | rfl | rfl | rfl | rfl | rfl | rfl | rfl | rfl | rfl | rfl | rfl | rfl | rfl | hi <;>
      first | exact hi.elim | simp [projection, List.replicate] at hz'
  · subst h3
    simp [projection, List.replicate]

theorem sum_eq_count_one (l : List Nat) (h : ∀ m ∈ l, m = 0 ∨ m = 1) : l.sum = l.count 1 := by
  induction l with
  | nil => rfl
  | cons a l ih =>
    have hl := ih (fun m hm => h m (List.mem_cons_of_mem _ hm))
    rcases h a (List.mem_cons_self _ _) with rfl | rfl
    · simp [hl]
    · simp [hl, Nat.add_comm]

/-- Claim C2. For every array of length `N ≥ 1` over any commutative additive monoid (wrapping
machine integers included), `cpu_exclusive_scan_serial` leaves at each position `i < N` the
sum of the original elements strictly before `i`; position 0 holds 0, and the last scanned
value plus the original last element is the sum of the whole array. For a 0/1 mask, position
`i` holds the number of 1s strictly before `i`. -/
theorem cpu_exclusive_scan_serial_correct :
    (∀ (T : Type) [AddCommMonoid T] (start : List T) (N : Nat), 1 ≤ N → start.length = N →
      ∃ out, cpu_exclusive_scan_serial start N = some out ∧ out.length = N ∧
        (∀ i, i < N → out[i]? = some (start.take i).sum) ∧ out[0]? = some 0 ∧
        ∃ l o, out[N - 1]? = some l ∧ start[N - 1]? = some o ∧ l + o = start.sum) ∧
    (∀ (mask : List Nat) (N : Nat), 1 ≤ N → mask.length = N →
      (∀ m ∈ mask, m = 0 ∨ m = 1) →
      ∃ out, cpu_exclusive_scan_serial mask N = some out ∧
        ∀ i, i < N → out[i]? = some ((mask.take i).count 1)) := by
  constructor
  · intro T _ start N h1 hlen
    obtain ⟨out, hscan, hol, hlo, _⟩ := scan_spec start N h1 (by omega)
    refine ⟨out, hscan, by omega, hlo, ?_, (start.take (N - 1)).sum, start[N - 1], hlo _ (by omega),
      List.getElem?_eq_getElem (by omega), ?_⟩
    · simpa using hlo 0 (by omega)
    · rw [← List.sum_take_succ start (N - 1) (by omega)]
      have e : N - 1 + 1 = start.length := by omega
      rw [e, List.take_length]
  · intro mask N h1 hlen h01
    obtain ⟨out, hscan, _, hlo, _⟩ := scan_spec mask N h1 (by omega)
    refine ⟨out, hscan, fun i hi => ?_⟩
    rw [hlo i hi, sum_eq_count_one _ (fun m hm => h01 m (List.mem_of_mem_take hm))]

theorem cpu_exclusive_scan_serial_witness :
    (1 ≤ 5 ∧ [1, 0, 1, 1, 0].length = 5 ∧ ∀ m ∈ [1, 0, 1, 1, 0], m = 0 ∨ m = 1) ∧
    (∃ out, cpu_exclusive_scan_serial ([3, 4, 5] : List Int) 3 = some out ∧ out.length = 3 ∧
        (∀ i, i < 3 → out[i]? = some (([3, 4, 5] : List Int).take i).sum) ∧ out[0]? = some 0 ∧
        ∃ l o, out[3 - 1]? = some l ∧ ([3, 4, 5] : List Int)[3 - 1]? = some o ∧
          l + o = ([3, 4, 5] : List Int).sum) ∧
    (∃ out, cpu_exclusive_scan_serial [1, 0, 1, 1, 0] 5 = some out ∧
        ∀ i, i < 5 → out[i]? = some (([1, 0, 1, 1, 0].take i).count 1)) ∧
    cpu_exclusive_scan_serial [1, 0, 1, 1, 0] 5 = some [0, 1, 1, 2, 3] :=
  ⟨⟨by decide, by decide, by decide⟩,
    cpu_exclusive_scan_serial_correct.1 Int [3, 4, 5] 3 (by decide) (by decide),
    cpu_exclusive_scan_serial_correct.2 [1, 0, 1, 1, 0] 5 (by decide) (by decide) (by decide),
    by decide⟩

/-- Claim C10 at a failing input. A 4x4 image with every depth 1000 and stride 2 has 4
sampled pixels, all positive; the mask has `4*4/2/2 = 4` slots, and the mask pass writes
slot `x + y*width = 4` for the sampled pixel `(0,1)`, beyond the end of the mask. -/
theorem depth2cloud_cpu_stride2_mask_overrun :
    u32 (4 * 4) / 2 / 2 = 4 ∧
    mask_body (List.replicate 16 1000) 4 2 0 1 (List.replicate 4 0) = none ∧
    __depth2cloud_cpu (List.replicate 16 1000) 4 4
      (!![1, 0, 0; 0, 1, 0; 0, 0, 1] : Mat3x3f ℚ) 2 0 0 = none := by
  decide!

/-! ## ICP -/

section icp_proofs
variable {F : Type} [LinearOrderedField F]

theorem abs_diff_lt_zero (a b : Option F) : abs_diff_lt a b 0 = false := by
  cases a <;> cases b <;> simp [abs_diff_lt]

theorem icp_converged_zero (N : Nat) (st : IcpState F) :
    icp_converged ⟨0, 0, N⟩ st = false := by
  simp [icp_converged, abs_diff_lt_zero]

theorem icp_loop_zero_threshold (lib : NumLib F) (scene : Scene F) (N : Nat) :
    ∀ (d iter : Nat) (st : IcpState F), iter + d = N →
      icp_loop lib scene ⟨0, 0, N⟩ (d + 1) iter st =
        icp_return (icp_evaluate lib scene ((icp_step lib scene)^[d] st)) N := by
  intro d
  induction d with
  | zero =>
    intro iter st h
    have : iter = N := by omega
    subst this
    simp [icp_loop]
  | succ d ih =>
    intro iter st h
    have hne : iter ≠ N := by omega
    have hle : iter ≤ N := by omega
    rw [icp_loop]
    simp only [hle, hne, if_true, if_false, icp_converged_zero]
    rw [ih (iter + 1) _ (by omega)]
    rfl

theorem applied_length_step (lib : NumLib F) (scene : Scene F) (st : IcpState F) (k : Nat) :
    ((icp_step lib scene)^[k] st).applied.length = st.applied.length + k := by
  induction k generalizing st with
  | zero => rfl
  | succ k ih =>
    rw [Function.iterate_succ_apply, ih]
    simp [icp_step, icp_update, icp_evaluate]
    omega

/-- Claim C3. With both thresholds 0 and `max_iteration = N`, ICP applies exactly `N` updates,
one in each of the passes `0 .. N-1`, and returns in pass `N` with the metrics of that pass
and without a further update. -/
theorem icp_zero_threshold_runs_N_updates (lib : NumLib F) (f0 r0 : Option F)
    (model_pcd : List (Vec3f F)) (scene : Scene F) (N : Nat) :
    (__ICP_Point2Plane_cpu lib f0 r0 model_pcd scene ⟨0, 0, N⟩).pass = N ∧
    (__ICP_Point2Plane_cpu lib f0 r0 model_pcd scene ⟨0, 0, N⟩).applied.length = N ∧
    (__ICP_Point2Plane_cpu lib f0 r0 model_pcd scene ⟨0, 0, N⟩).model_pcd =
      (icp_state_at lib scene (icp_init f0 r0 model_pcd) N).model_pcd ∧
    (__ICP_Point2Plane_cpu lib f0 r0 model_pcd scene ⟨0, 0, N⟩).result =
      (icp_evaluate lib scene (icp_state_at lib scene (icp_init f0 r0 model_pcd) N)).result := by
  have h := icp_loop_zero_threshold lib scene N N 0 (icp_init f0 r0 model_pcd) (by omega)
  unfold __ICP_Point2Plane_cpu
  simp only [h]
  refine ⟨rfl, ?_, rfl, rfl⟩
  simp only [icp_return, icp_evaluate]
  rw [applied_length_step]
  simp [icp_init]

end icp_proofs

section transform_proofs
variable {F : Type} [LinearOrderedField F]

theorem transform_point_mul (T1 T2 : Mat4x4f F) (p : Vec3f F)
    (h0 : T1 3 0 = 0) (h1 : T1 3 1 = 0) (h2 : T1 3 2 = 0) (h3 : T1 3 3 = 1) :
    transform_point T2 (transform_point T1 p) = transform_point (T2 * T1) p := by
  simp only [transform_point, Matrix.mul_apply, Fin.sum_univ_four, h0, h1, h2, h3]
  congr 1 <;> ring

theorem transform_point_one (p : Vec3f F) : transform_point (1 : Mat4x4f F) p = p := by
  cases p
  simp [transform_point, Matrix.one_apply]

theorem transform_pcd_mul (model_pcd : List (Vec3f F)) (T1 T2 : Mat4x4f F)
    (hrow : T1 3 = ![0, 0, 0, 1]) :
    transform_pcd (transform_pcd model_pcd T1) T2 = transform_pcd model_pcd (T2 * T1) := by
  have h0 : T1 3 0 = 0 := by rw [hrow]; rfl
  have h1 : T1 3 1 = 0 := by rw [hrow]; rfl
  have h2 : T1 3 2 = 0 := by rw [hrow]; rfl
  have h3 : T1 3 3 = 1 := by rw [hrow]; rfl
  simp only [transform_pcd, List.map_map]
  apply List.map_congr_left
  intro p _
  exact transform_point_mul T1 T2 p h0 h1 h2 h3

/-- Claim C6. Composition law of `transform_pcd` in exact arithmetic: for every cloud, every
`T1` whose last row is `[0,0,0,1]` and every `T2`, applying `transform_pcd` with `T1` and then
with `T2` gives the same cloud as one application with the matrix product `T2 * T1`. -/
theorem transform_pcd_composition (model_pcd : List (Vec3f F)) (T1 T2 : Mat4x4f F)
    (hrow : T1 3 = ![0, 0, 0, 1]) :
    transform_pcd (transform_pcd model_pcd T1) T2 = transform_pcd model_pcd (T2 * T1) :=
  transform_pcd_mul model_pcd T1 T2 hrow

end transform_proofs

theorem transform_pcd_composition_witness :
    (!![0, -1, 0, 5; 1, 0, 0, 0; 0, 0, 1, 0; 0, 0, 0, 1] : Mat4x4f ℚ) 3 = ![0, 0, 0, 1] ∧
    transform_pcd (transform_pcd [⟨1, 2, 3⟩, ⟨0, 0, 0⟩]
        (!![0, -1, 0, 5; 1, 0, 0, 0; 0, 0, 1, 0; 0, 0, 0, 1] : Mat4x4f ℚ))
        (!![2, 0, 0, 0; 0, 1, 0, 1; 0, 0, 1, 0; 7, 0, 0, 3] : Mat4x4f ℚ) =
      transform_pcd [⟨1, 2, 3⟩, ⟨0, 0, 0⟩]
        ((!![2, 0, 0, 0; 0, 1, 0, 1; 0, 0, 1, 0; 7, 0, 0, 3] : Mat4x4f ℚ) *
          !![0, -1, 0, 5; 1, 0, 0, 0; 0, 0, 1, 0; 0, 0, 0, 1]) :=
  ⟨rfl, transform_pcd_composition _ _ _ rfl⟩

section invariant_proofs
variable {F : Type} [LinearOrderedField F]

theorem eigen_slover_666_last_row (lib : NumLib F) (A : Matrix (Fin 6) (Fin 6) F)
    (b : Fin 6 → F) : eigen_slover_666 lib A b 3 = ![0, 0, 0, 1] := rfl

theorem mul_last_row (E T : Mat4x4f F) (hE : E 3 = ![0, 0, 0, 1]) : (E * T) 3 = T 3 := by
  funext j
  have h0 : E 3 0 = 0 := by rw [hE]; rfl
  have h1 : E 3 1 = 0 := by rw [hE]; rfl
  have h2 : E 3 2 = 0 := by rw [hE]; rfl
  have h3 : E 3 3 = 1 := by rw [hE]; rfl
  simp [Matrix.mul_apply, Fin.sum_univ_four, h0, h1, h2, h3]

theorem accumulated_append (applied : List (Mat4x4f F)) (E : Mat4x4f F) :
    accumulated (applied ++ [E]) = E * accumulated applied := by
  simp [accumulated, List.foldl_append]

theorem one_last_row : (1 : Mat4x4f F) 3 = ![0, 0, 0, 1] := by
  funext j
  fin_cases j <;> simp [Matrix.one_apply]

theorem icpInv_init (f0 r0 : Option F) (orig : List (Vec3f F)) :
    icpInv orig (icp_init f0 r0 orig).result.transformation_ (icp_init f0 r0 orig).applied
      (icp_init f0 r0 orig).model_pcd := by
  refine ⟨rfl, one_last_row, ?_⟩
  simp only [icp_init, RegistrationResult.init, transform_pcd]
  rw [List.map_congr_left (fun p _ => transform_point_one p)]
  simp

theorem icpInv_step (lib : NumLib F) (scene : Scene F) (orig : List (Vec3f F))
    (st : IcpState F) (h : icpInv orig st.result.transformation_ st.applied st.model_pcd) :
    icpInv orig (icp_step lib scene st).result.transformation_ (icp_step lib scene st).applied
      (icp_step lib scene st).model_pcd := by
  obtain ⟨hT, hrow, hc⟩ := h
  simp only [icp_step, icp_update, icp_evaluate]
  refine ⟨?_, ?_, ?_⟩
  · rw [accumulated_append, ← hT]
  · rw [mul_last_row _ _ (eigen_slover_666_last_row lib _ _)]; exact hrow
  · rw [hc, transform_pcd_mul _ _ _ hrow]

theorem icpInv_loop (lib : NumLib F) (scene : Scene F) (criteria : ICPConvergenceCriteria F)
    (orig : List (Vec3f F)) :
    ∀ (fuel iter : Nat) (st : IcpState F),
      icpInv orig st.result.transformation_ st.applied st.model_pcd →
      icpInv orig (icp_loop lib scene criteria fuel iter st).result.transformation_
        (icp_loop lib scene criteria fuel iter st).applied
        (icp_loop lib scene criteria fuel iter st).model_pcd := by
  intro fuel
  induction fuel with
  | zero => intro iter st h; exact h
  | succ fuel ih =>
    intro iter st h
    rw [icp_loop]
    by_cases h1 : iter ≤ criteria.max_iteration_
    · rw [if_pos h1]
      dsimp only
      by_cases h2 : iter = criteria.max_iteration_
      · rw [if_pos h2]; exact h
      · rw [if_neg h2]
        by_cases h3 : icp_converged criteria (icp_evaluate lib scene st) = true
        · rw [if_pos h3]; exact h
        · rw [if_neg h3]
          exact ih _ _ (icpInv_step lib scene orig st h)
    · rw [if_neg h1]; exact h

theorem icpInv_state_at (lib : NumLib F) (scene : Scene F) (f0 r0 : Option F)
    (orig : List (Vec3f F)) (k : Nat) :
    icpInv orig (icp_state_at lib scene (icp_init f0 r0 orig) k).result.transformation_
      (icp_state_at lib scene (icp_init f0 r0 orig) k).applied
      (icp_state_at lib scene (icp_init f0 r0 orig) k).model_pcd := by
  induction k with
  | zero => exact icpInv_init f0 r0 orig
  | succ k ih =>
    unfold icp_state_at at ih ⊢
    rw [Function.iterate_succ_apply']
    exact icpInv_step lib scene orig _ ih

/-- Claim C7. After every pass and on return, `result.transformation_` is the accumulated product
`E_k * ... * E_0 * I` of the increments applied so far, its last row is `[0,0,0,1]`, and the
mutated cloud is `transform_pcd` of the caller's cloud with `result.transformation_`. -/
theorem icp_cumulative_transformation (lib : NumLib F) (f0 r0 : Option F)
    (model_pcd : List (Vec3f F)) (scene : Scene F) (criteria : ICPConvergenceCriteria F) :
    ((__ICP_Point2Plane_cpu lib f0 r0 model_pcd scene criteria).result.transformation_ =
        accumulated (__ICP_Point2Plane_cpu lib f0 r0 model_pcd scene criteria).applied ∧
      (__ICP_Point2Plane_cpu lib f0 r0 model_pcd scene criteria).result.transformation_ 3 =
        ![0, 0, 0, 1] ∧
      (__ICP_Point2Plane_cpu lib f0 r0 model_pcd scene criteria).model_pcd =
        transform_pcd model_pcd
          (__ICP_Point2Plane_cpu lib f0 r0 model_pcd scene criteria).result.transformation_) ∧
    ∀ k, (icp_state_at lib scene (icp_init f0 r0 model_pcd) k).result.transformation_ =
        accumulated (icp_state_at lib scene (icp_init f0 r0 model_pcd) k).applied ∧
      (icp_state_at lib scene (icp_init f0 r0 model_pcd) k).result.transformation_ 3 =
        ![0, 0, 0, 1] ∧
      (icp_state_at lib scene (icp_init f0 r0 model_pcd) k).model_pcd =
        transform_pcd model_pcd
          (icp_state_at lib scene (icp_init f0 r0 model_pcd) k).result.transformation_ :=
  ⟨icpInv_loop lib scene criteria model_pcd _ _ _ (icpInv_init f0 r0 model_pcd),
    fun k => icpInv_state_at lib scene f0 r0 model_pcd k⟩

end invariant_proofs

section jacobian_proofs
variable {F : Type} [LinearOrderedField F]

/-- Counterexample to claim C5 as stated: for the source point `(1,0,0)` and the matched
normal `(0,1,0)` the third entry of the row written by the code is `1`, while the third
component of `cross(normal, point)` is `-1`. -/
theorem jacobian_row_counterexample :
    (linearize_point ⟨fun _ => (⟨0, 0, 0⟩, ⟨0, 1, 0⟩, true)⟩ (⟨1, 0, 0⟩ : Vec3f ℚ)
        BufRow.zero).A 2 = 1 ∧
    (cross ⟨0, 1, 0⟩ (⟨1, 0, 0⟩ : Vec3f ℚ)).z = -1 ∧
    (linearize_point ⟨fun _ => (⟨0, 0, 0⟩, ⟨0, 1, 0⟩, true)⟩ (⟨1, 0, 0⟩ : Vec3f ℚ)
        BufRow.zero).A 2 ≠ (cross ⟨0, 1, 0⟩ (⟨1, 0, 0⟩ : Vec3f ℚ)).z := by
  norm_num [linearize_point, cross]

/-- Claim C5, amended. For a source point `p` whose query is valid with matched normal `n`,
the Jacobian row written by the linearization pass is `[cross(p, n), n]`: its first three
entries are the cross product of the source point with the matched normal, that is the
negated `cross(n, p)`, and its last three entries are `n.x, n.y, n.z`. -/
theorem jacobian_row_cross_source_normal (scene : Scene F) (p q n : Vec3f F) (row : BufRow F)
    (hq : scene.query p = (q, n, true)) :
    (linearize_point scene p row).A =
      ![(cross p n).x, (cross p n).y, (cross p n).z, n.x, n.y, n.z] ∧
    (linearize_point scene p row).A =
      ![-(cross n p).x, -(cross n p).y, -(cross n p).z, n.x, n.y, n.z] := by
  simp only [linearize_point, hq, cross, if_true]
  constructor <;>
  · funext j
    fin_cases j <;> first | rfl | (simp; done) | (simp; ring)

theorem jacobian_row_cross_source_normal_witness :
    (⟨fun _ => (⟨3, 0, 0⟩, ⟨0, 1, 0⟩, true)⟩ : Scene ℚ).query ⟨1, 0, 0⟩ =
      (⟨3, 0, 0⟩, ⟨0, 1, 0⟩, true) ∧
    ((linearize_point (⟨fun _ => (⟨3, 0, 0⟩, ⟨0, 1, 0⟩, true)⟩ : Scene ℚ)
        ⟨1, 0, 0⟩ BufRow.zero).A =
      ![(cross (⟨1, 0, 0⟩ : Vec3f ℚ) ⟨0, 1, 0⟩).x, (cross (⟨1, 0, 0⟩ : Vec3f ℚ) ⟨0, 1, 0⟩).y,
        (cross (⟨1, 0, 0⟩ : Vec3f ℚ) ⟨0, 1, 0⟩).z, 0, 1, 0] ∧
    (linearize_point (⟨fun _ => (⟨3, 0, 0⟩, ⟨0, 1, 0⟩, true)⟩ : Scene ℚ)
        ⟨1, 0, 0⟩ BufRow.zero).A =
      ![-(cross (⟨0, 1, 0⟩ : Vec3f ℚ) ⟨1, 0, 0⟩).x, -(cross (⟨0, 1, 0⟩ : Vec3f ℚ) ⟨1, 0, 0⟩).y,
        -(cross (⟨0, 1, 0⟩ : Vec3f ℚ) ⟨1, 0, 0⟩).z, 0, 1, 0]) :=
  ⟨rfl, jacobian_row_cross_source_normal _ _ _ _ _ rfl⟩

end jacobian_proofs

section convergence_proofs
variable {F : Type} [LinearOrderedField F]

theorem foldl_count_pass0 (scene : Scene F) (cloud : List (Vec3f F)) :
    ∀ (n acc : Nat), n = cloud.length →
      (List.zipWith (linearize_point scene) cloud (List.replicate n BufRow.zero)).foldl
        (fun count row => count + row.valid) acc =
      acc + cloud.countP (fun p => (scene.query p).2.2) := by
  induction cloud with
  | nil => intro n acc _; simp
  | cons p ps ih =>
    intro n acc hn
    obtain ⟨m, rfl⟩ : ∃ m, n = m + 1 := ⟨ps.length, by simpa using hn⟩
    rw [List.replicate_succ, List.zipWith_cons_cons, List.foldl_cons, ih m _ (by simpa using hn),
      List.countP_cons]
    rcases hq : scene.query p with ⟨q, nrm, v⟩
    cases v <;> simp [linearize_point, hq, BufRow.zero, Nat.add_assoc, Nat.add_comm]

theorem reduce_count_pass0 (scene : Scene F) (cloud : List (Vec3f F)) :
    reduce_count (linearize_pass scene cloud (List.replicate cloud.length BufRow.zero)) =
      cloud.countP (fun p => (scene.query p).2.2) := by
  simp [reduce_count, linearize_pass, foldl_count_pass0 scene cloud cloud.length 0 rfl]

/-- Pass 0 with finite default metrics. The convergence test of lines 113-114 has no guard on
`iter`, so it is evaluated in pass 0 against the metrics of the default-constructed result.
When these are finite, `f` and `r`, and both thresholds exceed the pass-0 differences, ICP
returns in pass 0: no update is applied, the cloud is unchanged and the transformation is the
identity. -/
theorem icp_large_threshold_returns_in_pass0 (lib : NumLib F) (f r : F)
    (model_pcd : List (Vec3f F)) (scene : Scene F) (criteria : ICPConvergenceCriteria F)
    (hvalid : ∃ p ∈ model_pcd, (scene.query p).2.2 = true)
    (hf : |((model_pcd.countP (fun p => (scene.query p).2.2) : Nat) : F) /
        (model_pcd.length : F) - f| < criteria.relative_fitness_)
    (hr : |lib.sqrt (reduce_error (linearize_pass scene model_pcd
          (List.replicate model_pcd.length BufRow.zero)) /
        ((model_pcd.countP (fun p => (scene.query p).2.2) : Nat) : F)) - r| <
        criteria.relative_rmse_) :
    (__ICP_Point2Plane_cpu lib (some f) (some r) model_pcd scene criteria).pass = 0 ∧
    (__ICP_Point2Plane_cpu lib (some f) (some r) model_pcd scene criteria).applied = [] ∧
    (__ICP_Point2Plane_cpu lib (some f) (some r) model_pcd scene criteria).model_pcd =
      model_pcd ∧
    (__ICP_Point2Plane_cpu lib (some f) (some r) model_pcd scene criteria).result.transformation_
      = 1 := by
  obtain ⟨p, hp, hv⟩ := hvalid
  have hcount : 0 < model_pcd.countP (fun p => (scene.query p).2.2) :=
    List.countP_pos_iff.2 ⟨p, hp, hv⟩
  have hlen : 0 < model_pcd.length := List.length_pos_of_mem hp
  have hc0 : ((model_pcd.countP (fun p => (scene.query p).2.2) : Nat) : F) ≠ 0 :=
    Nat.cast_ne_zero.2 (by omega)
  have hl0 : (model_pcd.length : F) ≠ 0 := Nat.cast_ne_zero.2 (by omega)
  have hconv : icp_converged criteria
      (icp_evaluate lib scene (icp_init (some f) (some r) model_pcd)) = true := by
    simp only [icp_converged, icp_evaluate, icp_init, RegistrationResult.init,
      reduce_count_pass0, fdiv, hc0, hl0, if_false, Option.map_some', abs_diff_lt,
      Bool.and_eq_true, decide_eq_true_eq]
    exact ⟨hf, hr⟩
  unfold __ICP_Point2Plane_cpu
  rw [icp_loop, if_pos (Nat.zero_le _)]
  dsimp only
  by_cases h2 : 0 = criteria.max_iteration_
  · rw [if_pos h2]
    exact ⟨rfl, rfl, rfl, rfl⟩
  · rw [if_neg h2, if_pos hconv]
    exact ⟨rfl, rfl, rfl, rfl⟩

end convergence_proofs

theorem icp_large_threshold_returns_in_pass0_witness :
    (∃ p ∈ [(⟨0, 0, 0⟩ : Vec3f ℚ)], (sceneAll.query p).2.2 = true) ∧
    ((__ICP_Point2Plane_cpu diagLib (some 0) (some 0) [⟨0, 0, 0⟩] sceneAll
        ⟨1000, 1000, 2⟩).pass = 0 ∧
      (__ICP_Point2Plane_cpu diagLib (some 0) (some 0) [⟨0, 0, 0⟩] sceneAll
        ⟨1000, 1000, 2⟩).applied = [] ∧
      (__ICP_Point2Plane_cpu diagLib (some 0) (some 0) [⟨0, 0, 0⟩] sceneAll
        ⟨1000, 1000, 2⟩).model_pcd = [⟨0, 0, 0⟩] ∧
      (__ICP_Point2Plane_cpu diagLib (some 0) (some 0) [⟨0, 0, 0⟩] sceneAll
        ⟨1000, 1000, 2⟩).result.transformation_ = 1) :=
  ⟨⟨⟨0, 0, 0⟩, by simp, rfl⟩,
    icp_large_threshold_returns_in_pass0 diagLib 0 0 [⟨0, 0, 0⟩] sceneAll ⟨1000, 1000, 2⟩
      ⟨⟨0, 0, 0⟩, by simp, rfl⟩ (by decide!) (by decide!)⟩

section default_metric_proofs
variable {F : Type} [LinearOrderedField F]

/-- Pass 0 without finite default metrics. When the default-constructed result carries no
finite fitness or no finite inlier_rmse, the convergence test of pass 0 is false for every
cloud, scene and criteria. -/
theorem icp_pass0_test_false_of_no_prior (lib : NumLib F) (f0 r0 : Option F)
    (model_pcd : List (Vec3f F)) (scene : Scene F) (criteria : ICPConvergenceCriteria F)
    (hno : f0 = none ∨ r0 = none) :
    icp_converged criteria (icp_evaluate lib scene (icp_init f0 r0 model_pcd)) = false := by
  rcases hno with h | h
  · subst h
    simp only [icp_converged, icp_evaluate, icp_init, RegistrationResult.init]
    cases fdiv ((reduce_count (linearize_pass scene model_pcd
      (List.replicate model_pcd.length BufRow.zero)) : Nat) : F) (model_pcd.length : F) <;>
      simp [abs_diff_lt]
  · subst h
    simp only [icp_converged, icp_evaluate, icp_init, RegistrationResult.init]
    cases Option.map lib.sqrt (fdiv (reduce_error (linearize_pass scene model_pcd
      (List.replicate model_pcd.length BufRow.zero)))
      ((reduce_count (linearize_pass scene model_pcd
        (List.replicate model_pcd.length BufRow.zero)) : Nat) : F)) <;>
      simp [abs_diff_lt]

/-- With such a default result, `max_iteration ≥ 1` and a convergence test that passes in
pass 1, ICP applies the pass-0 update and returns in pass 1 after exactly one update. -/
theorem icp_no_prior_returns_in_pass1 (lib : NumLib F) (f0 r0 : Option F)
    (model_pcd : List (Vec3f F)) (scene : Scene F) (criteria : ICPConvergenceCriteria F)
    (hno : f0 = none ∨ r0 = none) (hmax : 1 ≤ criteria.max_iteration_)
    (hconv : icp_converged criteria (icp_evaluate lib scene
      (icp_step lib scene (icp_init f0 r0 model_pcd))) = true) :
    (__ICP_Point2Plane_cpu lib f0 r0 model_pcd scene criteria).pass = 1 ∧
    (__ICP_Point2Plane_cpu lib f0 r0 model_pcd scene criteria).applied.length = 1 := by
  have h0 := icp_pass0_test_false_of_no_prior lib f0 r0 model_pcd scene criteria hno
  obtain ⟨m, hm⟩ : ∃ m, criteria.max_iteration_ = m + 1 := ⟨criteria.max_iteration_ - 1, by omega⟩
  unfold __ICP_Point2Plane_cpu
  rw [hm, icp_loop, if_pos (by omega)]
  dsimp only
  rw [if_neg (by omega), h0]
  simp only [Bool.false_eq_true, if_false]
  rw [icp_loop, if_pos (by omega)]
  dsimp only
  by_cases h2 : 0 + 1 = criteria.max_iteration_
  · rw [if_pos h2]
    exact ⟨rfl, by simp [icp_return, icp_evaluate, icp_update, icp_init]⟩
  · rw [if_neg h2]
    have hconv' : icp_converged criteria (icp_evaluate lib scene
        (icp_update lib (icp_evaluate lib scene (icp_init f0 r0 model_pcd)))) = true := hconv
    rw [if_pos hconv']
    exact ⟨rfl, by simp [icp_return, icp_evaluate, icp_update, icp_init]⟩

end default_metric_proofs

theorem icp_no_prior_returns_in_pass1_example :
    (__ICP_Point2Plane_cpu diagLib none none [⟨0, 0, 0⟩] sceneAll ⟨1000, 1000, 2⟩).pass = 1 ∧
    (__ICP_Point2Plane_cpu diagLib none none [⟨0, 0, 0⟩] sceneAll
      ⟨1000, 1000, 2⟩).applied.length = 1 :=
  icp_no_prior_returns_in_pass1 diagLib none none [⟨0, 0, 0⟩] sceneAll ⟨1000, 1000, 2⟩
    (Or.inl rfl) (by decide) (by decide!)

theorem stale_system_pass0 :
    normal_A (linearize_pass sceneShift [⟨0, 0, 0⟩] [BufRow.zero]) = staleA ∧
    normal_b (linearize_pass sceneShift [⟨0, 0, 0⟩] [BufRow.zero]) = staleB := by
  constructor
  · funext j k
    fin_cases j <;> fin_cases k <;>
      first
      | (simp [normal_A, linearize_pass, linearize_point, sceneShift, staleA]; done)
      | (simp [normal_A, linearize_pass, linearize_point, sceneShift, staleA]; rfl)
  · funext j
    fin_cases j <;>
      first
      | (simp [normal_b, linearize_pass, linearize_point, sceneShift, staleB]; done)
      | (simp [normal_b, linearize_pass, linearize_point, sceneShift, staleB]; rfl)

theorem stale_run_eq (lib : NumLib ℚ) :
    __ICP_Point2Plane_cpu lib (some 0) (some 0) [⟨0, 0, 0⟩] sceneShift ⟨0, 0, 1⟩ =
      icp_return (icp_evaluate lib sceneShift
        (icp_step lib sceneShift (icp_init (some 0) (some 0) [⟨0, 0, 0⟩]))) 1 :=
  icp_loop_zero_threshold lib sceneShift 1 1 0 _ rfl

theorem stale_moved_point (lib : NumLib ℚ) (hs : lib.ldlt_solve staleA staleB 3 = 2) :
    (icp_step lib sceneShift (icp_init (some 0) (some 0) [⟨0, 0, 0⟩])).model_pcd =
      [⟨2, lib.ldlt_solve staleA staleB 4, lib.ldlt_solve staleA staleB 5⟩] ∧
    (icp_step lib sceneShift (icp_init (some 0) (some 0) [⟨0, 0, 0⟩])).buffer =
      linearize_pass sceneShift [⟨0, 0, 0⟩] [BufRow.zero] := by
  constructor
  · simp only [icp_step, icp_update, icp_evaluate, icp_init, List.length_singleton,
      List.replicate_one, stale_system_pass0.1, stale_system_pass0.2, transform_pcd,
      List.map_cons, List.map_nil]
    simp [transform_point, eigen_slover_666, eigen_to_custom, TransformVector6dToMatrix4d, hs]
  · rfl

/-- Claim C8 at a failing input. One point at the origin, a scene that matches every point with
`x < 1` to the plane `x = p.x + 2` (normal `(1,0,0)`), thresholds 0, `max_iteration = 1`, and
any solver whose result satisfies the pass-0 system (`x_3 = 2`): in pass 1 the point has
moved to `x = 2`, its query is invalid, and yet its buffer row still holds the Jacobian row,
residual and validity marker written in pass 0. -/
theorem icp_invalid_point_keeps_stale_row (lib : NumLib ℚ)
    (hs : lib.ldlt_solve staleA staleB 3 = 2) :
    (__ICP_Point2Plane_cpu lib (some 0) (some 0) [⟨0, 0, 0⟩] sceneShift ⟨0, 0, 1⟩).pass = 1 ∧
    (__ICP_Point2Plane_cpu lib (some 0) (some 0) [⟨0, 0, 0⟩] sceneShift
      ⟨0, 0, 1⟩).model_pcd.map (fun p => (sceneShift.query p).2.2) = [false] ∧
    (__ICP_Point2Plane_cpu lib (some 0) (some 0) [⟨0, 0, 0⟩] sceneShift
      ⟨0, 0, 1⟩).buffer.map (fun row => (row.A, row.b, row.valid)) =
        [(![0, 0, 0, 1, 0, 0], 2, 1)] := by
  obtain ⟨hm, hb⟩ := stale_moved_point lib hs
  rw [stale_run_eq]
  refine ⟨rfl, ?_, ?_⟩
  · simp only [icp_return, icp_evaluate, hm]
    simp [sceneShift]
  · simp only [icp_return, icp_evaluate, hm, hb]
    simp only [linearize_pass, List.zipWith_cons_cons, List.zipWith_nil_left, List.map_cons,
      List.map_nil]
    have e : linearize_point sceneShift ⟨0, 0, 0⟩ BufRow.zero =
        { A := ![0, 0, 0, 1, 0, 0], b := 2, valid := 1 } := by
      simp [linearize_point, sceneShift]
    rw [e]
    simp [linearize_point, sceneShift]

theorem icp_invalid_point_keeps_stale_row_witness :
    diagLib.ldlt_solve staleA staleB 3 = 2 ∧
    ((__ICP_Point2Plane_cpu diagLib (some 0) (some 0) [⟨0, 0, 0⟩] sceneShift
      ⟨0, 0, 1⟩).pass = 1 ∧
    (__ICP_Point2Plane_cpu diagLib (some 0) (some 0) [⟨0, 0, 0⟩] sceneShift
      ⟨0, 0, 1⟩).model_pcd.map (fun p => (sceneShift.query p).2.2) = [false] ∧
    (__ICP_Point2Plane_cpu diagLib (some 0) (some 0) [⟨0, 0, 0⟩] sceneShift
      ⟨0, 0, 1⟩).buffer.map (fun row => (row.A, row.b, row.valid)) =
        [(![0, 0, 0, 1, 0, 0], 2, 1)]) :=
  ⟨by decide!, icp_invalid_point_keeps_stale_row diagLib (by decide!)⟩

/-- Claim C9 at a failing input (same run as for C8). In pass 1 no point has a valid
correspondence, so the claimed fitness is `0 / 1`; the code reports fitness 1, because
`valid_buffer[0]` still holds the 1 written in pass 0. -/
theorem icp_fitness_counts_stale_valid (lib : NumLib ℚ)
    (hs : lib.ldlt_solve staleA staleB 3 = 2) :
    (__ICP_Point2Plane_cpu lib (some 0) (some 0) [⟨0, 0, 0⟩] sceneShift ⟨0, 0, 1⟩).pass = 1 ∧
    (__ICP_Point2Plane_cpu lib (some 0) (some 0) [⟨0, 0, 0⟩] sceneShift
      ⟨0, 0, 1⟩).model_pcd.countP (fun p => (sceneShift.query p).2.2) = 0 ∧
    (__ICP_Point2Plane_cpu lib (some 0) (some 0) [⟨0, 0, 0⟩] sceneShift
      ⟨0, 0, 1⟩).model_pcd.length = 1 ∧
    (__ICP_Point2Plane_cpu lib (some 0) (some 0) [⟨0, 0, 0⟩] sceneShift
      ⟨0, 0, 1⟩).result.fitness_ = some 1 := by
  obtain ⟨hm, hb⟩ := stale_moved_point lib hs
  rw [stale_run_eq]
  refine ⟨rfl, ?_, ?_, ?_⟩
  · simp only [icp_return, icp_evaluate, hm]
    simp [sceneShift]
  · simp only [icp_return, icp_evaluate, hm]
    rfl
  · simp only [icp_return, icp_evaluate, hm, hb]
    simp [linearize_pass, linearize_point, sceneShift, reduce_count, fdiv]

theorem icp_fitness_counts_stale_valid_witness :
    diagLib.ldlt_solve staleA staleB 3 = 2 ∧
    ((__ICP_Point2Plane_cpu diagLib (some 0) (some 0) [⟨0, 0, 0⟩] sceneShift
      ⟨0, 0, 1⟩).pass = 1 ∧
    (__ICP_Point2Plane_cpu diagLib (some 0) (some 0) [⟨0, 0, 0⟩] sceneShift
      ⟨0, 0, 1⟩).model_pcd.countP (fun p => (sceneShift.query p).2.2) = 0 ∧
    (__ICP_Point2Plane_cpu diagLib (some 0) (some 0) [⟨0, 0, 0⟩] sceneShift
      ⟨0, 0, 1⟩).model_pcd.length = 1 ∧
    (__ICP_Point2Plane_cpu diagLib (some 0) (some 0) [⟨0, 0, 0⟩] sceneShift
      ⟨0, 0, 1⟩).result.fitness_ = some 1) :=
  ⟨by decide!, icp_fitness_counts_stale_valid diagLib (by decide!)⟩

/-! ## Aligned clouds, rigid transforms, returning pass, counts and index safety -/

theorem reduce_count_eq_sum {F : Type} (buffer : List (BufRow F)) :
    reduce_count buffer = (buffer.map (fun row => row.valid)).sum := by
  have h : ∀ (l : List (BufRow F)) (acc : Nat),
      l.foldl (fun count row => count + row.valid) acc =
        acc + (l.map (fun row => row.valid)).sum := by
    intro l
    induction l with
    | nil => intro acc; simp
    | cons r l ih => intro acc; simp [ih, Nat.add_assoc]
  simpa [reduce_count] using h buffer 0

theorem reduce_count_le_length {F : Type} (buffer : List (BufRow F)) (h : ∀ row ∈ buffer, row.valid ≤ 1) :
    reduce_count buffer ≤ buffer.length := by
  rw [reduce_count_eq_sum]
  induction buffer with
  | nil => simp
  | cons r rs ih =>
    have h1 := h r (List.mem_cons_self _ _)
    have h2 := ih (fun row hr => h row (List.mem_cons_of_mem _ hr))
    simp only [List.map_cons, List.sum_cons, List.length_cons]
    omega

section aligned_proofs
variable {F : Type} [LinearOrderedField F]

theorem reduce_error_eq_sum (buffer : List (BufRow F)) :
    reduce_error buffer = (buffer.map (fun row => row.b * row.b)).sum := by
  have h : ∀ (l : List (BufRow F)) (acc : F),
      l.foldl (fun total_error row => total_error + row.b * row.b) acc =
        acc + (l.map (fun row => row.b * row.b)).sum := by
    intro l
    induction l with
    | nil => intro acc; simp
    | cons r l ih => intro acc; simp [ih, add_assoc]
  simpa [reduce_error] using h buffer 0

/-- Every row of an aligned first pass has residual 0 and marker 1. -/
theorem aligned_rows (scene : Scene F) (model_pcd : List (Vec3f F))
    (haligned : ∀ p ∈ model_pcd, ∃ q n, scene.query p = (q, n, true) ∧
      (q.x - p.x) * n.x + (q.y - p.y) * n.y + (q.z - p.z) * n.z = 0) :
    ∀ (m : Nat), m = model_pcd.length →
      ∀ row ∈ linearize_pass scene model_pcd (List.replicate m BufRow.zero),
        row.b = 0 ∧ row.valid = 1 := by
  induction model_pcd with
  | nil => intro m _ row hrow; simp [linearize_pass] at hrow
  | cons p ps ih =>
    intro m hm row hrow
    obtain ⟨k, rfl⟩ : ∃ k, m = k + 1 := ⟨ps.length, by simpa using hm⟩
    simp only [linearize_pass, List.replicate_succ, List.zipWith_cons_cons,
      List.mem_cons] at hrow
    rcases hrow with rfl | hrow
    · obtain ⟨q, n, hq, hdot⟩ := haligned p (List.mem_cons_self _ _)
      simp [linearize_point, hq, hdot]
    · exact ih (fun p hp => haligned p (List.mem_cons_of_mem _ hp)) k (by simpa using hm)
        row hrow

/-- Claim C11. For a non-empty cloud already aligned with the scene (every query valid and
`dot(matched_point - source_point, matched_normal) = 0`), the first pass computes
fitness 1 and inlier_rmse 0 (with `sqrt 0 = 0`), and the right-hand side `b = J^T r` handed
to the solver is the zero vector. -/
theorem icp_aligned_first_pass (lib : NumLib F) (f0 r0 : Option F)
    (model_pcd : List (Vec3f F)) (scene : Scene F) (hne : model_pcd ≠ [])
    (haligned : ∀ p ∈ model_pcd, ∃ q n, scene.query p = (q, n, true) ∧
      (q.x - p.x) * n.x + (q.y - p.y) * n.y + (q.z - p.z) * n.z = 0)
    (hsqrt : lib.sqrt 0 = 0) :
    (icp_evaluate lib scene (icp_init f0 r0 model_pcd)).result.fitness_ = some 1 ∧
    (icp_evaluate lib scene (icp_init f0 r0 model_pcd)).result.inlier_rmse_ = some 0 ∧
    normal_b (icp_evaluate lib scene (icp_init f0 r0 model_pcd)).buffer = 0 := by
  have hrows := aligned_rows scene model_pcd haligned model_pcd.length rfl
  have hlen : 0 < model_pcd.length := List.length_pos.2 hne
  have hl0 : (model_pcd.length : F) ≠ 0 := Nat.cast_ne_zero.2 (by omega)
  have hcount : reduce_count (linearize_pass scene model_pcd
      (List.replicate model_pcd.length BufRow.zero)) = model_pcd.length := by
    rw [reduce_count_eq_sum]
    have : (linearize_pass scene model_pcd
        (List.replicate model_pcd.length BufRow.zero)).map (fun row => row.valid) =
        List.replicate model_pcd.length 1 := by
      rw [List.eq_replicate_iff]
      refine ⟨by simp [linearize_pass], ?_⟩
      intro v hv
      obtain ⟨row, hrow, rfl⟩ := List.mem_map.1 hv
      exact (hrows row hrow).2
    rw [this]; simp
  have herr : reduce_error (linearize_pass scene model_pcd
      (List.replicate model_pcd.length BufRow.zero)) = 0 := by
    rw [reduce_error_eq_sum]
    apply List.sum_eq_zero
    intro v hv
    obtain ⟨row, hrow, rfl⟩ := List.mem_map.1 hv
    simp [(hrows row hrow).1]
  refine ⟨?_, ?_, ?_⟩
  · simp only [icp_evaluate, icp_init, hcount, fdiv, hl0, if_false]
    rw [div_self hl0]
  · simp only [icp_evaluate, icp_init, hcount, herr, fdiv, hl0, if_false, Option.map_some',
      zero_div, hsqrt]
  · funext j
    simp only [icp_evaluate, icp_init, normal_b, Pi.zero_apply]
    apply List.sum_eq_zero
    intro v hv
    obtain ⟨row, hrow, rfl⟩ := List.mem_map.1 hv
    simp [(hrows row hrow).1]

end aligned_proofs

theorem icp_aligned_first_pass_witness :
    ([⟨1, 2, 0⟩, ⟨3, 4, 0⟩] : List (Vec3f ℚ)) ≠ [] ∧ diagLib.sqrt 0 = 0 ∧
    ((icp_evaluate diagLib sceneFlat
        (icp_init (some 0) (some 0) [⟨1, 2, 0⟩, ⟨3, 4, 0⟩])).result.fitness_ = some 1 ∧
      (icp_evaluate diagLib sceneFlat
        (icp_init (some 0) (some 0) [⟨1, 2, 0⟩, ⟨3, 4, 0⟩])).result.inlier_rmse_ = some 0 ∧
      normal_b (icp_evaluate diagLib sceneFlat
        (icp_init (some 0) (some 0) [⟨1, 2, 0⟩, ⟨3, 4, 0⟩])).buffer = 0) :=
  ⟨by simp, by decide!,
    icp_aligned_first_pass diagLib (some 0) (some 0) [⟨1, 2, 0⟩, ⟨3, 4, 0⟩] sceneFlat
      (by simp)
      (by
        intro p hp
        refine ⟨⟨p.x, p.y, 0⟩, ⟨0, 0, 1⟩, rfl, ?_⟩
        simp only [List.mem_cons, List.mem_singleton, List.not_mem_nil, or_false] at hp
        rcases hp with rfl | rfl <;> simp)
      (by decide!)⟩

section rigid_proofs
variable {F : Type} [LinearOrderedField F]

theorem rotation_block_eq (lib : NumLib F) (input : Fin 6 → F) :
    rotation_block (TransformVector6dToMatrix4d lib input) =
      rotZ lib (input 2) * rotY lib (input 1) * rotX lib (input 0) := by
  funext i j
  fin_cases i <;> fin_cases j <;> rfl

theorem rotX_orthogonal (lib : NumLib F) (a : F) (h : lib.sin a ^ 2 + lib.cos a ^ 2 = 1) :
    (rotX lib a).transpose * rotX lib a = 1 ∧ (rotX lib a).det = 1 := by
  have ht : (rotX lib a).transpose =
      !![1, 0, 0; 0, lib.cos a, lib.sin a; 0, -lib.sin a, lib.cos a] := by
    ext i j; fin_cases i <;> fin_cases j <;> rfl
  constructor
  · rw [ht, rotX, Matrix.mul_fin_three, Matrix.one_fin_three]
    ext i j
    fin_cases i <;> fin_cases j <;> simp [Matrix.vecHead, Matrix.vecTail] <;>
      first | ring1 | linear_combination h
  · rw [Matrix.det_fin_three]
    simp [rotX]
    linear_combination h

theorem rotY_orthogonal (lib : NumLib F) (a : F) (h : lib.sin a ^ 2 + lib.cos a ^ 2 = 1) :
    (rotY lib a).transpose * rotY lib a = 1 ∧ (rotY lib a).det = 1 := by
  have ht : (rotY lib a).transpose =
      !![lib.cos a, 0, -lib.sin a; 0, 1, 0; lib.sin a, 0, lib.cos a] := by
    ext i j; fin_cases i <;> fin_cases j <;> rfl
  constructor
  · rw [ht, rotY, Matrix.mul_fin_three, Matrix.one_fin_three]
    ext i j
    fin_cases i <;> fin_cases j <;> simp [Matrix.vecHead, Matrix.vecTail] <;>
      first | ring1 | linear_combination h
  · rw [Matrix.det_fin_three]
    simp [rotY]
    linear_combination h

theorem rotZ_orthogonal (lib : NumLib F) (a : F) (h : lib.sin a ^ 2 + lib.cos a ^ 2 = 1) :
    (rotZ lib a).transpose * rotZ lib a = 1 ∧ (rotZ lib a).det = 1 := by
  have ht : (rotZ lib a).transpose =
      !![lib.cos a, lib.sin a, 0; -lib.sin a, lib.cos a, 0; 0, 0, 1] := by
    ext i j; fin_cases i <;> fin_cases j <;> rfl
  constructor
  · rw [ht, rotZ, Matrix.mul_fin_three, Matrix.one_fin_three]
    ext i j
    fin_cases i <;> fin_cases j <;> simp [Matrix.vecHead, Matrix.vecTail] <;>
      first | ring1 | linear_combination h
  · rw [Matrix.det_fin_three]
    simp [rotZ]
    linear_combination h

theorem rigid_of_pythagorean (lib : NumLib F)
    (hpyth : ∀ a, lib.sin a ^ 2 + lib.cos a ^ 2 = 1) (input : Fin 6 → F) :
    (rotation_block (TransformVector6dToMatrix4d lib input)).transpose *
        rotation_block (TransformVector6dToMatrix4d lib input) = 1 ∧
    (rotation_block (TransformVector6dToMatrix4d lib input)).det = 1 := by
  obtain ⟨hx, dx⟩ := rotX_orthogonal lib (input 0) (hpyth _)
  obtain ⟨hy, dy⟩ := rotY_orthogonal lib (input 1) (hpyth _)
  obtain ⟨hz, dz⟩ := rotZ_orthogonal lib (input 2) (hpyth _)
  rw [rotation_block_eq]
  constructor
  · rw [Matrix.transpose_mul, Matrix.transpose_mul]
    calc (rotX lib (input 0)).transpose *
          ((rotY lib (input 1)).transpose * (rotZ lib (input 2)).transpose) *
          (rotZ lib (input 2) * rotY lib (input 1) * rotX lib (input 0))
        = (rotX lib (input 0)).transpose * ((rotY lib (input 1)).transpose *
            ((rotZ lib (input 2)).transpose * rotZ lib (input 2)) * rotY lib (input 1)) *
            rotX lib (input 0) := by simp only [Matrix.mul_assoc]
      _ = 1 := by rw [hz, Matrix.mul_one, hy, Matrix.mul_one, hx]
  · rw [Matrix.det_mul, Matrix.det_mul, dx, dy, dz]; norm_num

end rigid_proofs

/-- Claim C12. For every real 6-vector `(r_x, r_y, r_z, t_x, t_y, t_z)` and the real sine and
cosine, `TransformVector6dToMatrix4d` returns a rigid transform: its top-left 3x3 block is
`R = Rz(r_z) * Ry(r_y) * Rx(r_x)` with `R^T R = I` and `det R = 1`, the top three entries of
its last column are `(t_x, t_y, t_z)`, and its last row is `[0,0,0,1]`. -/
theorem TransformVector6dToMatrix4d_rigid (lib : NumLib ℝ) (hsin : lib.sin = Real.sin)
    (hcos : lib.cos = Real.cos) (input : Fin 6 → ℝ) :
    rotation_block (TransformVector6dToMatrix4d lib input) =
      rotZ lib (input 2) * rotY lib (input 1) * rotX lib (input 0) ∧
    (rotation_block (TransformVector6dToMatrix4d lib input)).transpose *
        rotation_block (TransformVector6dToMatrix4d lib input) = 1 ∧
    (rotation_block (TransformVector6dToMatrix4d lib input)).det = 1 ∧
    TransformVector6dToMatrix4d lib input 0 3 = input 3 ∧
    TransformVector6dToMatrix4d lib input 1 3 = input 4 ∧
    TransformVector6dToMatrix4d lib input 2 3 = input 5 ∧
    TransformVector6dToMatrix4d lib input 3 = ![0, 0, 0, 1] := by
  have hpyth : ∀ a, lib.sin a ^ 2 + lib.cos a ^ 2 = 1 := by
    intro a; rw [hsin, hcos]; exact Real.sin_sq_add_cos_sq a
  obtain ⟨h1, h2⟩ := rigid_of_pythagorean lib hpyth input
  exact ⟨rotation_block_eq lib input, h1, h2, rfl, rfl, rfl, rfl⟩

theorem TransformVector6dToMatrix4d_rigid_witness :
    (⟨Real.sqrt, Real.sin, Real.cos, fun _ _ => 0⟩ : NumLib ℝ).sin = Real.sin ∧
    (⟨Real.sqrt, Real.sin, Real.cos, fun _ _ => 0⟩ : NumLib ℝ).cos = Real.cos ∧
    (rotation_block (TransformVector6dToMatrix4d
          (⟨Real.sqrt, Real.sin, Real.cos, fun _ _ => 0⟩ : NumLib ℝ) ![1, 2, 3, 4, 5, 6]) =
        rotZ ⟨Real.sqrt, Real.sin, Real.cos, fun _ _ => 0⟩ ((![1, 2, 3, 4, 5, 6] : Fin 6 → ℝ) 2) *
          rotY ⟨Real.sqrt, Real.sin, Real.cos, fun _ _ => 0⟩ ((![1, 2, 3, 4, 5, 6] : Fin 6 → ℝ) 1) *
          rotX ⟨Real.sqrt, Real.sin, Real.cos, fun _ _ => 0⟩ ((![1, 2, 3, 4, 5, 6] : Fin 6 → ℝ) 0) ∧
      (rotation_block (TransformVector6dToMatrix4d
          (⟨Real.sqrt, Real.sin, Real.cos, fun _ _ => 0⟩ : NumLib ℝ)
          ![1, 2, 3, 4, 5, 6])).transpose *
        rotation_block (TransformVector6dToMatrix4d
          (⟨Real.sqrt, Real.sin, Real.cos, fun _ _ => 0⟩ : NumLib ℝ) ![1, 2, 3, 4, 5, 6]) = 1 ∧
      (rotation_block (TransformVector6dToMatrix4d
          (⟨Real.sqrt, Real.sin, Real.cos, fun _ _ => 0⟩ : NumLib ℝ)
          ![1, 2, 3, 4, 5, 6])).det = 1 ∧
      TransformVector6dToMatrix4d (⟨Real.sqrt, Real.sin, Real.cos, fun _ _ => 0⟩ : NumLib ℝ)
        ![1, 2, 3, 4, 5, 6] 0 3 = (![1, 2, 3, 4, 5, 6] : Fin 6 → ℝ) 3 ∧
      TransformVector6dToMatrix4d (⟨Real.sqrt, Real.sin, Real.cos, fun _ _ => 0⟩ : NumLib ℝ)
        ![1, 2, 3, 4, 5, 6] 1 3 = (![1, 2, 3, 4, 5, 6] : Fin 6 → ℝ) 4 ∧
      TransformVector6dToMatrix4d (⟨Real.sqrt, Real.sin, Real.cos, fun _ _ => 0⟩ : NumLib ℝ)
        ![1, 2, 3, 4, 5, 6] 2 3 = (![1, 2, 3, 4, 5, 6] : Fin 6 → ℝ) 5 ∧
      TransformVector6dToMatrix4d (⟨Real.sqrt, Real.sin, Real.cos, fun _ _ => 0⟩ : NumLib ℝ)
        ![1, 2, 3, 4, 5, 6] 3 = ![0, 0, 0, 1]) :=
  ⟨rfl, rfl, TransformVector6dToMatrix4d_rigid _ rfl rfl _⟩

section return_proofs
variable {F : Type} [LinearOrderedField F]

/-- Every run returns from a `return result;` inside the loop: in some pass `iter + k`, after
`k` further updates, with the state that pass evaluated. -/
theorem icp_loop_returns (lib : NumLib F) (scene : Scene F)
    (criteria : ICPConvergenceCriteria F) :
    ∀ (d iter : Nat) (st : IcpState F), iter + d = criteria.max_iteration_ →
      ∃ k, k ≤ d ∧ icp_loop lib scene criteria (d + 1) iter st =
        icp_return (icp_evaluate lib scene ((icp_step lib scene)^[k] st)) (iter + k) := by
  intro d
  induction d with
  | zero =>
    intro iter st h
    refine ⟨0, Nat.le_refl _, ?_⟩
    have h2 : iter = criteria.max_iteration_ := by omega
    rw [icp_loop, if_pos (by omega)]
    dsimp only
    rw [if_pos h2]
    rfl
  | succ d ih =>
    intro iter st h
    have h1 : iter ≤ criteria.max_iteration_ := by omega
    have h2 : ¬ iter = criteria.max_iteration_ := by omega
    rw [icp_loop, if_pos h1]
    dsimp only
    rw [if_neg h2]
    by_cases h3 : icp_converged criteria (icp_evaluate lib scene st) = true
    · rw [if_pos h3]
      exact ⟨0, Nat.zero_le _, rfl⟩
    · rw [if_neg h3]
      obtain ⟨k, hk, he⟩ := ih (iter + 1) (icp_update lib (icp_evaluate lib scene st))
        (by omega)
      refine ⟨k + 1, by omega, ?_⟩
      rw [he, Function.iterate_succ_apply]
      have e : iter + 1 + k = iter + (k + 1) := by omega
      rw [e]
      rfl

theorem icp_run_returns (lib : NumLib F) (f0 r0 : Option F) (model_pcd : List (Vec3f F))
    (scene : Scene F) (criteria : ICPConvergenceCriteria F) :
    ∃ k, k ≤ criteria.max_iteration_ ∧
      __ICP_Point2Plane_cpu lib f0 r0 model_pcd scene criteria =
        icp_return (icp_evaluate lib scene
          (icp_state_at lib scene (icp_init f0 r0 model_pcd) k)) k := by
  obtain ⟨k, hk, he⟩ := icp_loop_returns lib scene criteria criteria.max_iteration_ 0
    (icp_init f0 r0 model_pcd) (by omega)
  refine ⟨k, hk, ?_⟩
  unfold __ICP_Point2Plane_cpu icp_state_at
  rw [he, Nat.zero_add]

/-- Claim C13. The pass in which ICP returns performs no solve and no update: the cloud, the
cumulative transformation and the list of applied increments are those at the head of that
pass (as the previous pass left them), the number of updates equals the index of the
returning pass, and only fitness and inlier_rmse are those computed in that pass. For
`max_iteration = 0` ICP returns the identity transformation and leaves the cloud unchanged. -/
theorem icp_returning_pass_no_update (lib : NumLib F) (f0 r0 : Option F)
    (model_pcd : List (Vec3f F)) (scene : Scene F) (criteria : ICPConvergenceCriteria F) :
    ((__ICP_Point2Plane_cpu lib f0 r0 model_pcd scene criteria).pass ≤
        criteria.max_iteration_ ∧
      (__ICP_Point2Plane_cpu lib f0 r0 model_pcd scene criteria).model_pcd =
        (icp_state_at lib scene (icp_init f0 r0 model_pcd)
          (__ICP_Point2Plane_cpu lib f0 r0 model_pcd scene criteria).pass).model_pcd ∧
      (__ICP_Point2Plane_cpu lib f0 r0 model_pcd scene criteria).result.transformation_ =
        (icp_state_at lib scene (icp_init f0 r0 model_pcd)
          (__ICP_Point2Plane_cpu lib f0 r0 model_pcd scene criteria).pass).result.transformation_ ∧
      (__ICP_Point2Plane_cpu lib f0 r0 model_pcd scene criteria).applied =
        (icp_state_at lib scene (icp_init f0 r0 model_pcd)
          (__ICP_Point2Plane_cpu lib f0 r0 model_pcd scene criteria).pass).applied ∧
      (__ICP_Point2Plane_cpu lib f0 r0 model_pcd scene criteria).applied.length =
        (__ICP_Point2Plane_cpu lib f0 r0 model_pcd scene criteria).pass ∧
      (__ICP_Point2Plane_cpu lib f0 r0 model_pcd scene criteria).result =
        (icp_evaluate lib scene (icp_state_at lib scene (icp_init f0 r0 model_pcd)
          (__ICP_Point2Plane_cpu lib f0 r0 model_pcd scene criteria).pass)).result) ∧
    ∀ rf rr : F,
      (__ICP_Point2Plane_cpu lib f0 r0 model_pcd scene ⟨rf, rr, 0⟩).result.transformation_ = 1 ∧
      (__ICP_Point2Plane_cpu lib f0 r0 model_pcd scene ⟨rf, rr, 0⟩).model_pcd = model_pcd ∧
      (__ICP_Point2Plane_cpu lib f0 r0 model_pcd scene ⟨rf, rr, 0⟩).applied = [] ∧
      (__ICP_Point2Plane_cpu lib f0 r0 model_pcd scene ⟨rf, rr, 0⟩).pass = 0 := by
  constructor
  · obtain ⟨k, hk, he⟩ := icp_run_returns lib f0 r0 model_pcd scene criteria
    rw [he]
    refine ⟨hk, rfl, rfl, rfl, ?_, rfl⟩
    simp only [icp_return, icp_evaluate, icp_state_at]
    rw [applied_length_step]
    simp [icp_init]
  · intro rf rr
    obtain ⟨k, hk, he⟩ := icp_run_returns lib f0 r0 model_pcd scene ⟨rf, rr, 0⟩
    have hk0 : k = 0 := by simpa using hk
    subst hk0
    rw [he]
    exact ⟨rfl, rfl, rfl, rfl⟩

end return_proofs

section count_proofs
variable {F : Type} [LinearOrderedField F]

theorem linearize_point_marker (scene : Scene F) (p : Vec3f F) (row : BufRow F) :
    (linearize_point scene p row).valid = if (scene.query p).2.2 = true then 1 else row.valid := by
  rcases hq : scene.query p with ⟨q, n, v⟩
  cases v <;> simp [linearize_point, hq]

theorem linearize_pass_marker_le (scene : Scene F) (model_pcd : List (Vec3f F))
    (buffer : List (BufRow F)) (h : ∀ row ∈ buffer, row.valid ≤ 1) :
    ∀ row ∈ linearize_pass scene model_pcd buffer, row.valid ≤ 1 := by
  induction model_pcd generalizing buffer with
  | nil => intro row hrow; simp [linearize_pass] at hrow
  | cons p ps ih =>
    cases buffer with
    | nil => intro row hrow; simp [linearize_pass] at hrow
    | cons r rs =>
      intro row hrow
      simp only [linearize_pass, List.zipWith_cons_cons, List.mem_cons] at hrow
      rcases hrow with rfl | hrow
      · rw [linearize_point_marker]
        split
        · exact Nat.le_refl _
        · exact h r (List.mem_cons_self _ _)
      · exact ih rs (fun row hr => h row (List.mem_cons_of_mem _ hr)) row hrow

theorem bufInv_init (f0 r0 : Option F) (model_pcd : List (Vec3f F)) :
    bufInv (icp_init f0 r0 model_pcd) := by
  refine ⟨by simp [icp_init], ?_⟩
  intro row hrow
  simp only [icp_init] at hrow
  rw [List.eq_of_mem_replicate hrow]
  exact Nat.zero_le _

theorem bufInv_evaluate (lib : NumLib F) (scene : Scene F) (st : IcpState F)
    (h : bufInv st) : bufInv (icp_evaluate lib scene st) := by
  obtain ⟨hl, hv⟩ := h
  refine ⟨by simp [icp_evaluate, linearize_pass, hl], ?_⟩
  exact linearize_pass_marker_le scene st.model_pcd st.buffer hv

theorem bufInv_update (lib : NumLib F) (st : IcpState F) (h : bufInv st) :
    bufInv (icp_update lib st) := by
  obtain ⟨hl, hv⟩ := h
  exact ⟨by simp [icp_update, transform_pcd, hl], hv⟩

theorem bufInv_state_at (lib : NumLib F) (scene : Scene F) (f0 r0 : Option F)
    (model_pcd : List (Vec3f F)) (k : Nat) :
    bufInv (icp_state_at lib scene (icp_init f0 r0 model_pcd) k) ∧
    (icp_state_at lib scene (icp_init f0 r0 model_pcd) k).model_pcd.length =
      model_pcd.length := by
  induction k with
  | zero => exact ⟨bufInv_init f0 r0 model_pcd, rfl⟩
  | succ k ih =>
    unfold icp_state_at at ih ⊢
    rw [Function.iterate_succ_apply']
    refine ⟨bufInv_update lib _ (bufInv_evaluate lib scene _ ih.1), ?_⟩
    simp only [icp_step, icp_update, icp_evaluate, transform_pcd, List.length_map]
    exact ih.2

/-- Claim C14. For every non-empty cloud, every scene and every criteria, the fitness
returned by ICP is a fraction in `[0,1]`. -/
theorem icp_fitness_in_unit_interval (lib : NumLib F) (f0 r0 : Option F)
    (model_pcd : List (Vec3f F)) (scene : Scene F) (criteria : ICPConvergenceCriteria F)
    (hne : model_pcd ≠ []) :
    ∃ f, (__ICP_Point2Plane_cpu lib f0 r0 model_pcd scene criteria).result.fitness_ = some f ∧
      0 ≤ f ∧ f ≤ 1 := by
  obtain ⟨k, _, he⟩ := icp_run_returns lib f0 r0 model_pcd scene criteria
  obtain ⟨hinv, hlen⟩ := bufInv_state_at lib scene f0 r0 model_pcd k
  have hinv' := bufInv_evaluate lib scene _ hinv
  have hpos : 0 < model_pcd.length := List.length_pos.2 hne
  have hl0 : ((icp_state_at lib scene (icp_init f0 r0 model_pcd) k).model_pcd.length : F) ≠ 0 := by
    rw [hlen]; exact Nat.cast_ne_zero.2 (by omega)
  have hle := reduce_count_le_length _ hinv'.2
  rw [hinv'.1] at hle
  simp only [icp_evaluate] at hle
  refine ⟨((reduce_count (linearize_pass scene
      (icp_state_at lib scene (icp_init f0 r0 model_pcd) k).model_pcd
      (icp_state_at lib scene (icp_init f0 r0 model_pcd) k).buffer) : Nat) : F) /
    ((icp_state_at lib scene (icp_init f0 r0 model_pcd) k).model_pcd.length : F), ?_, ?_, ?_⟩
  · rw [he]
    simp only [icp_return, icp_evaluate, fdiv, hl0, if_false]
  · exact div_nonneg (Nat.cast_nonneg _) (Nat.cast_nonneg _)
  · rw [div_le_one (by rw [hlen]; exact Nat.cast_pos.2 hpos)]
    exact Nat.cast_le.2 hle

end count_proofs

theorem icp_fitness_in_unit_interval_witness :
    ([⟨0, 0, 0⟩] : List (Vec3f ℚ)) ≠ [] ∧
    ∃ f, (__ICP_Point2Plane_cpu diagLib (some 0) (some 0) [⟨0, 0, 0⟩] sceneShift
        ⟨0, 0, 1⟩).result.fitness_ = some f ∧ 0 ≤ f ∧ f ≤ 1 :=
  ⟨by simp, icp_fitness_in_unit_interval diagLib (some 0) (some 0) [⟨0, 0, 0⟩] sceneShift
    ⟨0, 0, 1⟩ (by simp)⟩

section normal_equation_proofs
variable {F : Type} [LinearOrderedField F]

theorem linearize_point_valid (scene : Scene F) (p : Vec3f F) (row : BufRow F)
    (hv : (scene.query p).2.2 = true) :
    linearize_point scene p row =
      { A := jacobian_row scene p, b := residual scene p, valid := 1 } := by
  rcases hq : scene.query p with ⟨q, n, v⟩
  rw [hq] at hv
  simp only at hv
  subst hv
  simp only [linearize_point, hq, jacobian_row, residual, cross, if_true]
  congr 1
  funext j
  fin_cases j <;> first | rfl | (simp; done) | (simp; ring1)

theorem sum_rows_pass0 (scene : Scene F) (g : BufRow F → F)
    (hg : g BufRow.zero = 0) (model_pcd : List (Vec3f F)) :
    ∀ m, m = model_pcd.length →
      ((linearize_pass scene model_pcd (List.replicate m BufRow.zero)).map g).sum =
        ((model_pcd.filter (fun p => (scene.query p).2.2)).map
          (fun p => g { A := jacobian_row scene p, b := residual scene p, valid := 1 })).sum := by
  induction model_pcd with
  | nil => intro m _; simp [linearize_pass]
  | cons p ps ih =>
    intro m hm
    obtain ⟨k, rfl⟩ : ∃ k, m = k + 1 := ⟨ps.length, by simpa using hm⟩
    have ih' := ih k (by simpa using hm)
    simp only [linearize_pass] at ih' ⊢
    rw [List.replicate_succ, List.zipWith_cons_cons, List.map_cons, List.sum_cons, ih']
    by_cases hv : (scene.query p).2.2 = true
    · simp [List.filter_cons, hv, linearize_point_valid scene p BufRow.zero hv]
    · have hz : linearize_point scene p BufRow.zero = BufRow.zero := by
        rcases hq : scene.query p with ⟨q, n, v⟩
        rw [hq] at hv
        simp only [linearize_point, hq]
        simp at hv
        simp [hv]
      simp [List.filter_cons, hv, hz, hg]

/-- Claim C15. In the first pass the system built from the full N-row buffers,
`A = A_buffer^T * A_buffer` and `b = A_buffer^T * b_buffer`, equals the system built from
the valid correspondences only, and `A` is symmetric. -/
theorem icp_first_pass_normal_equations (lib : NumLib F) (f0 r0 : Option F)
    (model_pcd : List (Vec3f F)) (scene : Scene F) :
    normal_A (icp_evaluate lib scene (icp_init f0 r0 model_pcd)).buffer =
      valid_system_A scene model_pcd ∧
    normal_b (icp_evaluate lib scene (icp_init f0 r0 model_pcd)).buffer =
      valid_system_b scene model_pcd ∧
    (normal_A (icp_evaluate lib scene (icp_init f0 r0 model_pcd)).buffer).transpose =
      normal_A (icp_evaluate lib scene (icp_init f0 r0 model_pcd)).buffer := by
  refine ⟨?_, ?_, ?_⟩
  · funext j k
    simp only [icp_evaluate, icp_init, normal_A, valid_system_A, Matrix.of_apply]
    exact sum_rows_pass0 scene (fun row => row.A j * row.A k) (by simp [BufRow.zero])
      model_pcd _ rfl
  · funext j
    simp only [icp_evaluate, icp_init, normal_b, valid_system_b]
    exact sum_rows_pass0 scene (fun row => row.A j * row.b) (by simp [BufRow.zero])
      model_pcd _ rfl
  · funext j k
    simp only [normal_A, Matrix.transpose_apply, Matrix.of_apply]
    congr 1
    apply List.map_congr_left
    intro row _
    exact mul_comm _ _

end normal_equation_proofs

section identity_proofs
variable {F : Type} [LinearOrderedField F]

theorem rot_zero (lib : NumLib F) (hsin0 : lib.sin 0 = 0) (hcos0 : lib.cos 0 = 1) :
    rotX lib 0 = 1 ∧ rotY lib 0 = 1 ∧ rotZ lib 0 = 1 := by
  simp only [rotX, rotY, rotZ, hsin0, hcos0, neg_zero, Matrix.one_fin_three, and_self]

theorem transform_vector_zero (lib : NumLib F) (hsin0 : lib.sin 0 = 0)
    (hcos0 : lib.cos 0 = 1) : TransformVector6dToMatrix4d lib 0 = 1 := by
  obtain ⟨hx, hy, hz⟩ := rot_zero lib hsin0 hcos0
  simp only [TransformVector6dToMatrix4d, Pi.zero_apply, hx, hy, hz, Matrix.mul_one]
  ext i j
  fin_cases i <;> fin_cases j <;> simp [Matrix.one_apply, Matrix.vecHead, Matrix.vecTail]

theorem transform_pcd_one (model_pcd : List (Vec3f F)) :
    transform_pcd model_pcd (1 : Mat4x4f F) = model_pcd := by
  simp only [transform_pcd]
  rw [List.map_congr_left (fun p _ => transform_point_one p)]
  simp

/-- Claim C16. With `sin 0 = 0` and `cos 0 = 1`, `TransformVector6dToMatrix4d` maps the zero
6-vector to the 4x4 identity, so a zero update from the solver gives the identity incremental
transform, and `transform_pcd` with the identity leaves every point of every cloud
unchanged. -/
theorem TransformVector6dToMatrix4d_zero_identity (lib : NumLib F) (hsin0 : lib.sin 0 = 0)
    (hcos0 : lib.cos 0 = 1) :
    TransformVector6dToMatrix4d lib 0 = 1 ∧
    (∀ A b, lib.ldlt_solve A b = 0 → eigen_slover_666 lib A b = 1) ∧
    (∀ model_pcd : List (Vec3f F), transform_pcd model_pcd (1 : Mat4x4f F) = model_pcd) ∧
    (∀ (A : Matrix (Fin 6) (Fin 6) F) (b : Fin 6 → F) (model_pcd : List (Vec3f F)),
      lib.ldlt_solve A b = 0 → transform_pcd model_pcd (eigen_slover_666 lib A b) = model_pcd) := by
  have h1 := transform_vector_zero lib hsin0 hcos0
  have h2 : ∀ A b, lib.ldlt_solve A b = 0 → eigen_slover_666 lib A b = 1 := by
    intro A b hz
    simp only [eigen_slover_666, hz, h1, eigen_to_custom]
    rfl
  refine ⟨h1, h2, transform_pcd_one, ?_⟩
  intro A b model_pcd hz
  rw [h2 A b hz, transform_pcd_one]

end identity_proofs

theorem TransformVector6dToMatrix4d_zero_identity_witness :
    diagLib.sin 0 = 0 ∧ diagLib.cos 0 = 1 ∧
    (TransformVector6dToMatrix4d diagLib 0 = 1 ∧
    (∀ A b, diagLib.ldlt_solve A b = 0 → eigen_slover_666 diagLib A b = 1) ∧
    (∀ model_pcd : List (Vec3f ℚ), transform_pcd model_pcd (1 : Mat4x4f ℚ) = model_pcd) ∧
    (∀ (A : Matrix (Fin 6) (Fin 6) ℚ) (b : Fin 6 → ℚ) (model_pcd : List (Vec3f ℚ)),
      diagLib.ldlt_solve A b = 0 →
        transform_pcd model_pcd (eigen_slover_666 diagLib A b) = model_pcd)) :=
  ⟨rfl, rfl, TransformVector6dToMatrix4d_zero_identity diagLib rfl rfl⟩

theorem forRange_preserves {σ : Type} (body : Nat → σ → Option σ) (P : σ → Prop)
    (hstep : ∀ i s s', body i s = some s' → P s → P s') (lo n : Nat) (s s' : σ)
    (h : forRange lo n body s = some s') (hP : P s) : P s' := by
  unfold forRange at h
  generalize List.range' lo (n - lo) = l at h
  induction l generalizing s with
  | nil =>
    simp only [List.foldlM, Option.pure_def, Option.some.injEq] at h
    rw [← h]; exact hP
  | cons a l ih =>
    simp only [List.foldlM, Option.bind_eq_bind] at h
    cases hb : body a s with
    | none => rw [hb] at h; simp at h
    | some s1 =>
      rw [hb] at h
      simp only [Option.some_bind] at h
      exact ih s1 (hstep a s s1 hb hP) h

theorem mask_body_length (depth : List Int) (width stride x y : Nat) (m m' : List Nat)
    (h : mask_body depth width stride x y m = some m') : m'.length = m.length := by
  unfold mask_body at h
  cases hd : depth[u32 (x * stride + y * stride * width)]? with
  | none => rw [hd] at h; simp at h
  | some d =>
    rw [hd] at h
    simp only [Option.bind_eq_bind, Option.some_bind] at h
    split at h
    · split at h
      · rw [← Option.some.inj h]; simp
      · simp at h
    · rw [← Option.some.inj h]

theorem mask_pass_length (depth : List Int) (width height stride : Nat) (m m' : List Nat)
    (h : mask_pass depth width height stride m = some m') : m'.length = m.length := by
  unfold mask_pass at h
  refine forRange_preserves _ (fun s => s.length = m.length) ?_ _ _ m m' h rfl
  intro x s s1 hx hs
  refine forRange_preserves _ (fun t => t.length = m.length) ?_ _ _ s s1 hx hs
  intro y t t1 hy ht
  rw [mask_body_length depth width stride x y t t1 hy]; exact ht

section overflow_proofs
variable {F : Type} [LinearOrderedField F]

/-- When the `uint32_t` product `width * height` gives an empty mask, `mask.back()` is called
on an empty vector. -/
theorem depth2cloud_empty_mask (depth : List Int) (width height : Nat) (K : Mat3x3f F)
    (stride tl_x tl_y : Nat) (hs : stride ≠ 0)
    (h0 : u32 (width * height) / stride / stride = 0) :
    __depth2cloud_cpu depth width height K stride tl_x tl_y = none := by
  unfold __depth2cloud_cpu
  rw [if_neg hs, h0, List.replicate_zero]
  cases hm : mask_pass depth width height stride [] with
  | none => simp [hm]
  | some m =>
    have hl := mask_pass_length depth width height stride _ m hm
    have : m = [] := List.length_eq_zero.1 (by simpa using hl)
    subst this
    simp [hm]

theorem scatter_body_length (depth : List Int) (w h : Nat) (K : Mat3x3f F)
    (tl_x tl_y x y : Nat) (mask : List Nat) (c : List (Vec3f F))
    (hlen : depth.length = w * h) (hov : w * h < 4294967296)
    (hmask : ∀ i, i < w * h → mask[i]? = some (rank (positive depth) i))
    (hx : x < w) (hy : y < h) (hc : c.length = rank (positive depth) (w * h)) :
    ∃ c', scatter_body depth w K 1 tl_x tl_y mask x y c = some c' ∧
      c'.length = rank (positive depth) (w * h) := by
  have hj := pixel_lt w h x y hx hy
  obtain ⟨e1, e2⟩ := depth_index_stride1 w h x y hov hx hy
  have hd : depth[x + y * w]? = some depth[x + y * w] := List.getElem?_eq_getElem (by omega)
  by_cases hp : depth[x + y * w] ≤ 0
  · exact ⟨c, by simp [scatter_body, e1, e2, hd, hp], hc⟩
  · have hpj : positive depth (x + y * w) = true := by
      simp [positive, hd]; omega
    have hr : rank (positive depth) (x + y * w) < c.length := by
      rw [hc]; exact rank_lt _ _ _ hj hpj
    refine ⟨c.set (rank (positive depth) (x + y * w))
      ⟨((u32 (x + tl_x) : F) - K 0 2) / K 0 0 * ((depth[x + y * w] : F) / 1000),
        ((u32 (y + tl_y) : F) - K 1 2) / K 1 1 * ((depth[x + y * w] : F) / 1000),
        (depth[x + y * w] : F) / 1000⟩, ?_, by simp [hc]⟩
    simp [scatter_body, e1, e2, hd, hp, hmask _ hj, hr]

theorem scatter_pass_length (depth : List Int) (w h : Nat) (K : Mat3x3f F)
    (tl_x tl_y : Nat) (mask : List Nat) (c0 : List (Vec3f F))
    (hlen : depth.length = w * h) (hov : w * h < 4294967296)
    (hmask : ∀ i, i < w * h → mask[i]? = some (rank (positive depth) i))
    (hc0 : c0.length = rank (positive depth) (w * h)) :
    ∃ c, scatter_pass depth w h K 1 tl_x tl_y mask c0 = some c ∧
      c.length = rank (positive depth) (w * h) := by
  obtain ⟨c, hc, hcl⟩ := forRange_inv
    (fun x c => forRange 0 h (fun y c => scatter_body depth w K 1 tl_x tl_y mask x y c) c)
    (fun _ c => c.length = rank (positive depth) (w * h)) 0 w (Nat.zero_le _) c0 hc0
    (by
      intro x c _ hx hinv
      exact forRange_inv
        (fun y c => scatter_body depth w K 1 tl_x tl_y mask x y c)
        (fun _ c => c.length = rank (positive depth) (w * h))
        0 h (Nat.zero_le _) c hinv
        (fun y c _ hy hi =>
          scatter_body_length depth w h K tl_x tl_y x y mask c hlen hov hmask hx hy hi))
  exact ⟨c, by simpa [scatter_pass] using hc, hcl⟩

/-- Claim C17, amended. For stride 1, `width, height ≥ 1`, a depth array of length
`width * height` and `width * height < 2^32`: every read of `depth`, every access of the mask
and every scatter write is in bounds (the function returns a cloud); the mask has
`width * height ≥ 1` slots; the scanned index of every positive pixel is strictly less than
`total_pcd_num`, the length of the cloud; and distinct positive pixels get distinct
indices. -/
theorem depth2cloud_cpu_stride1_index_safe (depth : List Int) (w h : Nat) (K : Mat3x3f F)
    (tl_x tl_y : Nat) (hw : 1 ≤ w) (hh : 1 ≤ h) (hlen : depth.length = w * h)
    (hov : w * h < 4294967296) :
    ∃ mask scanned cloud,
      mask_pass depth w h 1 (List.replicate (u32 (w * h) / 1 / 1) 0) = some mask ∧
      mask.length = w * h ∧ mask ≠ [] ∧
      cpu_exclusive_scan_serial mask mask.length = some scanned ∧
      scanned.length = w * h ∧
      __depth2cloud_cpu depth w h K 1 tl_x tl_y = some cloud ∧
      (∀ x y, x < w → y < h →
        u32 (x * 1 + y * 1 * w) < depth.length ∧ u32 (x + y * w) < mask.length) ∧
      (∀ i, i < w * h → positive depth i = true →
        ∃ k, scanned[i]? = some k ∧ k < cloud.length) ∧
      (∀ i j, i < w * h → j < w * h → positive depth i = true → positive depth j = true →
        scanned[i]? = scanned[j]? → i = j) := by
  have hn : 1 ≤ w * h := Nat.mul_pos hw hh
  have hu0 : u32 (w * h) = w * h := u32_of_lt _ hov
  have hmp := mask_pass_stride1 depth w h hlen hov hw
  generalize hm1 : (List.range (w * h)).map (fun i => if positive depth i then 1 else 0) = mask1
    at hmp
  have hl1 : mask1.length = w * h := by rw [← hm1]; simp
  have hget1 : ∀ i, i < w * h → mask1[i]? = some (if positive depth i then 1 else 0) := by
    intro i hi
    rw [← hm1, List.getElem?_map, List.getElem?_range hi]; rfl
  obtain ⟨out, hscan, hol, hlo, _⟩ := scan_spec mask1 mask1.length (by omega) (Nat.le_refl _)
  have hmask : ∀ i, i < w * h → out[i]? = some (rank (positive depth) i) := by
    intro i hi
    rw [hlo i (by omega), ← hm1, sum_take_indicator _ _ _ (by omega)]
  have hlast1 : mask1.getLast? = some (if positive depth (w * h - 1) then 1 else 0) := by
    rw [List.getLast?_eq_getElem?, hl1]; exact hget1 _ (by omega)
  have hlast2 : out.getLast? = some (rank (positive depth) (w * h - 1)) := by
    rw [List.getLast?_eq_getElem?, hol, hl1]; exact hmask _ (by omega)
  have htot : rank (positive depth) (w * h - 1) + (if positive depth (w * h - 1) then 1 else 0)
      = rank (positive depth) (w * h) := by
    have e : w * h = (w * h - 1) + 1 := by omega
    conv_rhs => rw [e]
    unfold rank
    rw [List.range_succ, List.filter_append, List.length_append]
    by_cases hp : positive depth (w * h - 1) = true <;> simp [hp]
  have hle : rank (positive depth) (w * h) ≤ w * h := by
    unfold rank
    exact (List.length_filter_le _ _).trans (by simp)
  have hu : u32 (rank (positive depth) (w * h)) = rank (positive depth) (w * h) :=
    u32_of_lt _ (by omega)
  obtain ⟨cloud, hsc, hcl⟩ := scatter_pass_length depth w h K tl_x tl_y out
    (List.replicate (rank (positive depth) (w * h)) (Vec3f.mk (0 : F) 0 0))
    hlen hov hmask (by simp)
  refine ⟨mask1, out, cloud, ?_, hl1, ?_, hscan, by omega, ?_, ?_, ?_, ?_⟩
  · simpa [hu0] using hmp
  · intro he; rw [he] at hl1; simp at hl1; omega
  · simp only [__depth2cloud_cpu, Nat.div_one, hu0, hmp, hlast1, hscan, hlast2, htot, hu, hsc,
      Option.bind_eq_bind, Option.some_bind, Option.pure_def, Option.bind_some]
    simp
  · intro x y hx hy
    obtain ⟨e1, e2⟩ := depth_index_stride1 w h x y hov hx hy
    have hj := pixel_lt w h x y hx hy
    rw [e1, e2, hlen, hl1]
    exact ⟨hj, hj⟩
  · intro i hi hp
    exact ⟨_, hmask i hi, by rw [hcl]; exact rank_lt _ _ _ hi hp⟩
  · intro i j hi hj hpi hpj he
    rw [hmask i hi, hmask j hj] at he
    exact rank_inj _ _ _ _ hi hj hpi hpj (Option.some.inj he)

end overflow_proofs

/-- Counterexample to claim C17 as stated: for `width = height = 65536` the `uint32_t`
product `width * height` wraps to 0, the mask is empty and `mask.back()` is out of
bounds, although the depth array has the full length `width * height = 2^32`. -/
theorem depth2cloud_cpu_index_overflow_counterexample :
    1 ≤ 65536 ∧ (List.replicate 4294967296 (0 : Int)).length = 65536 * 65536 ∧
    u32 (65536 * 65536) = 0 ∧
    __depth2cloud_cpu (List.replicate 4294967296 0) 65536 65536
      (!![1, 0, 0; 0, 1, 0; 0, 0, 1] : Mat3x3f ℚ) 1 0 0 = none :=
  ⟨by decide, by rw [List.length_replicate], by decide,
    depth2cloud_empty_mask _ _ _ _ _ _ _ (by decide) (by decide)⟩

theorem depth2cloud_cpu_stride1_index_safe_witness :
    (1 ≤ 2 ∧ ([0, 5, 7, 0] : List Int).length = 2 * 2 ∧ 2 * 2 < 4294967296) ∧
    ∃ mask scanned cloud,
      mask_pass [0, 5, 7, 0] 2 2 1 (List.replicate (u32 (2 * 2) / 1 / 1) 0) = some mask ∧
      mask.length = 2 * 2 ∧ mask ≠ [] ∧
      cpu_exclusive_scan_serial mask mask.length = some scanned ∧
      scanned.length = 2 * 2 ∧
      __depth2cloud_cpu [0, 5, 7, 0] 2 2 (!![1, 0, 0; 0, 1, 0; 0, 0, 1] : Mat3x3f ℚ) 1 3 4 =
        some cloud ∧
      (∀ x y, x < 2 → y < 2 →
        u32 (x * 1 + y * 1 * 2) < ([0, 5, 7, 0] : List Int).length ∧
          u32 (x + y * 2) < mask.length) ∧
      (∀ i, i < 2 * 2 → positive [0, 5, 7, 0] i = true →
        ∃ k, scanned[i]? = some k ∧ k < cloud.length) ∧
      (∀ i j, i < 2 * 2 → j < 2 * 2 → positive [0, 5, 7, 0] i = true →
        positive [0, 5, 7, 0] j = true → scanned[i]? = scanned[j]? → i = j) :=
  ⟨⟨by decide, by decide, by decide⟩,
    depth2cloud_cpu_stride1_index_safe [0, 5, 7, 0] 2 2 _ 3 4 (by decide) (by decide)
      (by decide) (by decide)⟩

section monotone_proofs
variable {F : Type} [LinearOrderedField F]

theorem reduce_count_linearize_ge (scene : Scene F) (model_pcd : List (Vec3f F)) :
    ∀ (buffer : List (BufRow F)), buffer.length = model_pcd.length →
      (∀ row ∈ buffer, row.valid ≤ 1) →
      reduce_count buffer ≤ reduce_count (linearize_pass scene model_pcd buffer) := by
  induction model_pcd with
  | nil =>
    intro buffer hl _
    have : buffer = [] := List.length_eq_zero.1 (by simpa using hl)
    subst this
    simp [linearize_pass]
  | cons p ps ih =>
    intro buffer hl hv
    cases buffer with
    | nil => simp at hl
    | cons r rs =>
      have h1 := hv r (List.mem_cons_self _ _)
      have h2 := ih rs (by simpa using hl) (fun row hr => hv row (List.mem_cons_of_mem _ hr))
      simp only [reduce_count_eq_sum] at h2 ⊢
      simp only [linearize_pass, List.zipWith_cons_cons, List.map_cons, List.sum_cons] at h2 ⊢
      rw [linearize_point_marker]
      split <;> omega

theorem reduce_count_linearize_eq_zero (scene : Scene F) (model_pcd : List (Vec3f F)) :
    ∀ (buffer : List (BufRow F)), buffer.length = model_pcd.length →
      (reduce_count (linearize_pass scene model_pcd buffer) = 0 ↔
        reduce_count buffer = 0 ∧ ∀ p ∈ model_pcd, (scene.query p).2.2 = false) := by
  induction model_pcd with
  | nil =>
    intro buffer hl
    have : buffer = [] := List.length_eq_zero.1 (by simpa using hl)
    subst this
    simp [linearize_pass]
  | cons p ps ih =>
    intro buffer hl
    cases buffer with
    | nil => simp at hl
    | cons r rs =>
      have h2 := ih rs (by simpa using hl)
      simp only [reduce_count_eq_sum] at h2 ⊢
      simp only [linearize_pass, List.zipWith_cons_cons, List.map_cons, List.sum_cons,
        List.mem_cons, forall_eq_or_imp, Nat.add_eq_zero_iff] at h2 ⊢
      rw [linearize_point_marker, h2]
      by_cases hq : (scene.query p).2.2 = true
      · simp [hq]
      · simp only [hq, if_false]
        have hq' : (scene.query p).2.2 = false := by simpa using hq
        simp only [hq', true_and]
        tauto

theorem pass_count_succ (lib : NumLib F) (scene : Scene F) (st0 : IcpState F) (k : Nat) :
    pass_count lib scene st0 (k + 1) =
      reduce_count (linearize_pass scene (icp_state_at lib scene st0 (k + 1)).model_pcd
        (icp_evaluate lib scene (icp_state_at lib scene st0 k)).buffer) := by
  simp only [pass_count, icp_evaluate]
  congr 1
  unfold icp_state_at
  rw [Function.iterate_succ_apply']
  rfl

theorem pass_count_eq_zero_iff (lib : NumLib F) (scene : Scene F) (f0 r0 : Option F)
    (model_pcd : List (Vec3f F)) (k : Nat) :
    pass_count lib scene (icp_init f0 r0 model_pcd) k = 0 ↔
      ∀ j, j ≤ k → ∀ p ∈ (icp_state_at lib scene (icp_init f0 r0 model_pcd) j).model_pcd,
        (scene.query p).2.2 = false := by
  induction k with
  | zero =>
    have h := reduce_count_linearize_eq_zero scene model_pcd
      (List.replicate model_pcd.length BufRow.zero) (by simp)
    have h0 : reduce_count (List.replicate model_pcd.length (BufRow.zero : BufRow F)) = 0 := by
      rw [reduce_count_eq_sum, List.map_replicate]
      simp [BufRow.zero]
    rw [h0] at h
    simp only [true_and] at h
    constructor
    · intro hc j hj p hp
      have : j = 0 := by omega
      subst this
      exact h.1 hc p hp
    · intro hall
      exact h.2 (hall 0 (Nat.le_refl _))
  | succ k ih =>
    obtain ⟨hinv, hlen⟩ := bufInv_state_at lib scene f0 r0 model_pcd k
    obtain ⟨_, hlen'⟩ := bufInv_state_at lib scene f0 r0 model_pcd (k + 1)
    have hinv' := bufInv_evaluate lib scene _ hinv
    have h := reduce_count_linearize_eq_zero scene
      (icp_state_at lib scene (icp_init f0 r0 model_pcd) (k + 1)).model_pcd
      (icp_evaluate lib scene (icp_state_at lib scene (icp_init f0 r0 model_pcd) k)).buffer
      (by rw [hinv'.1, hlen']; simp only [icp_evaluate]; exact hlen)
    rw [pass_count_succ, h]
    change pass_count lib scene (icp_init f0 r0 model_pcd) k = 0 ∧ _ ↔ _
    rw [ih]
    constructor
    · rintro ⟨h1, h2⟩ j hj p hp
      by_cases hjk : j ≤ k
      · exact h1 j hjk p hp
      · have : j = k + 1 := by omega
        subst this
        exact h2 p hp
    · intro hall
      exact ⟨fun j hj => hall j (by omega), hall (k + 1) (Nat.le_refl _)⟩

/-- Claim C18. The valid count computed by ICP never decreases from one pass to the next;
it is zero in a pass exactly when no point has been valid in that pass or any earlier one,
so once some point has had a valid correspondence the divisor of `total_error / count` is
nonzero in that pass and in every later pass; and that division is undefined exactly when
the count is zero. -/
theorem icp_valid_count_monotone (lib : NumLib F) (f0 r0 : Option F)
    (model_pcd : List (Vec3f F)) (scene : Scene F) (k : Nat) :
    pass_count lib scene (icp_init f0 r0 model_pcd) k ≤
      pass_count lib scene (icp_init f0 r0 model_pcd) (k + 1) ∧
    (pass_count lib scene (icp_init f0 r0 model_pcd) k = 0 ↔
      ∀ j, j ≤ k → ∀ p ∈ (icp_state_at lib scene (icp_init f0 r0 model_pcd) j).model_pcd,
        (scene.query p).2.2 = false) ∧
    (∀ j, j ≤ k →
      (∃ p ∈ (icp_state_at lib scene (icp_init f0 r0 model_pcd) j).model_pcd,
        (scene.query p).2.2 = true) →
      pass_count lib scene (icp_init f0 r0 model_pcd) k ≠ 0) ∧
    ((icp_evaluate lib scene
        (icp_state_at lib scene (icp_init f0 r0 model_pcd) k)).result.inlier_rmse_ = none ↔
      pass_count lib scene (icp_init f0 r0 model_pcd) k = 0) := by
  have hiff := pass_count_eq_zero_iff lib scene f0 r0 model_pcd k
  refine ⟨?_, hiff, ?_, ?_⟩
  · obtain ⟨hinv, hlen⟩ := bufInv_state_at lib scene f0 r0 model_pcd k
    obtain ⟨_, hlen'⟩ := bufInv_state_at lib scene f0 r0 model_pcd (k + 1)
    have hinv' := bufInv_evaluate lib scene _ hinv
    rw [pass_count_succ]
    exact reduce_count_linearize_ge scene _ _
      (by rw [hinv'.1, hlen']; simp only [icp_evaluate]; exact hlen) hinv'.2
  · rintro j hj ⟨p, hp, hv⟩ hc
    have := hiff.1 hc j hj p hp
    rw [hv] at this
    exact Bool.noConfusion this
  · simp only [icp_evaluate, pass_count, fdiv, Option.map_eq_none', ite_eq_left_iff,
      Nat.cast_eq_zero]
    constructor
    · intro h
      by_contra hc
      exact Option.noConfusion (h hc)
    · intro h hc
      exact absurd h hc

end monotone_proofs

end cuda_icp
